import Mathlib

/-!
# Collision system of `that_game_engine` (`S_Collidable.cpp`, chapter 46)

A shallow embedding of `S_Collidable`: the layer matrix, the per-layer buckets,
the set of colliding pairs and the per-frame pipeline
(`Add`, `ProcessRemovals`, `UpdatePositions`, `Resolve`, `ProcessCollidingObjects`,
`Update`).  Everything the translation unit only calls (objects and their flags,
the quadtree, box-collider geometry, the collision hooks) is a parameter, bundled
in `Env`; calls that leave the class are recorded in a trace of `Event`s.
-/

namespace ThatGameEngine

/-! ## Data model -/

/-- Modelled from the spec: the `CollisionLayer` enumeration, whose declaration is
outside the available sources.  The constructor of `S_Collidable` names
`Default`, `Tile`, `Player`, `NPC` and `Projectile`. -/
inductive CollisionLayer where
  | Default
  | Tile
  | Player
  | NPC
  | Projectile
deriving DecidableEq, Repr

/-- Modelled from the spec: the integer behind `(int) layer`, used as a bit position and
as the ordering key of the two `std::map`s.  The enumeration's declaration is outside the
available sources; the values only need to be distinct and below the mask width. -/
def CollisionLayer.toInt : CollisionLayer → Nat
  | .Default => 1
  | .Player => 2
  | .Tile => 3
  | .Projectile => 4
  | .NPC => 5

/-- Modelled from the spec: `Bitmask` (its header is outside the available sources), a
fixed-width bit vector with set-bit, test-bit and raw-value read; 32 bits wide. -/
structure Bitmask where
  bits : Nat
deriving DecidableEq, Repr

/-- The default constructor `Bitmask()` and `Bitmask(0)`: no bit set. -/
def Bitmask.zero : Bitmask := ⟨0⟩

/-- The call `SetBit(pos)`: turn bit `pos` on. -/
def Bitmask.SetBit (b : Bitmask) (pos : Nat) : Bitmask :=
  ⟨(b.bits ||| (1 <<< pos)) % 2 ^ 32⟩

/-- The call `GetBit(pos)`: is bit `pos` on. -/
def Bitmask.GetBit (b : Bitmask) (pos : Nat) : Bool :=
  (b.bits &&& (1 <<< pos)) != 0

/-- The call `GetMask()`: the raw value. -/
def Bitmask.GetMask (b : Bitmask) : Nat := b.bits

/-- Modelled from the spec: `C_BoxCollider` is declared outside the available sources.  A
`std::shared_ptr<C_BoxCollider>` is represented by the identity of the collider object, the
`instanceID` of its owner (`owner->instanceID->Get()`) and its layer (`GetLayer()`), which
the spec fixes per collider at creation. -/
structure C_BoxCollider where
  id : Nat
  owner : Nat
  layer : CollisionLayer
deriving DecidableEq, Repr

/-- Modelled from the spec: `Object` is declared outside the available sources.  A
`std::shared_ptr<Object>` as `Add` and `UpdatePositions` see it: its identity and the result
of `GetComponent<C_BoxCollider>()` (`none` for a null pointer). -/
structure Object where
  instanceID : Nat
  collider : Option C_BoxCollider
deriving DecidableEq, Repr

/-- Modelled from the spec: the result of `Intersects` (declared outside the available
sources): the `colliding` flag and the overlap data handed to `ResolveOverlap`. -/
structure Manifold where
  colliding : Bool
  overlap : Int × Int
deriving DecidableEq, Repr

/-- A contact-set element: the `std::pair` built by `std::make_pair(collidable, collision)`. -/
abbrev ColliderPair := C_BoxCollider × C_BoxCollider

/-- Calls that leave `S_Collidable`, in the order they are made.  For the three hooks
`OnCollisionX self other` records `self->owner->OnCollisionX(other)`. -/
inductive Event where
  | DrawDebug
  | Clear
  | Insert (c : C_BoxCollider)
  | UpdatePosition (c : C_BoxCollider)
  | Search (c : C_BoxCollider)
  | Intersects (a b : C_BoxCollider)
  | OnCollisionEnter (self other : C_BoxCollider)
  | OnCollisionStay (self other : C_BoxCollider)
  | OnCollisionExit (self other : C_BoxCollider)
  | DrawRect (c : C_BoxCollider)
  | ResolveOverlap (c : C_BoxCollider) (m : Manifold)
deriving DecidableEq, Repr

/-- What `S_Collidable.cpp` uses but does not define, over a state `W` of the rest of the
game (object flags, positions, the quadtree geometry).

* `IsQueuedForRemoval w o`, `isStatic w o`: the flags of the object with `instanceID` `o`;
* `Search w inserted c`: `collisionTree.Search(c->GetCollidable())`, where `inserted` lists
  the colliders inserted since the last `Clear`;
* `Intersects w a b`: `a->Intersects(b)`;
* `ResolveOverlap w c m`: the effect of `c->ResolveOverlap(m)`;
* `OnCollisionEnter w o other` (and `Stay`, `Exit`): the effect of the hook called on the
  object `o` with argument `other`;
* `sameKey p q`: whether the container `objectsColliding` takes the pairs `p` and `q` for
  the same element (the container is declared in the class header). -/
structure Env (W : Type) where
  IsQueuedForRemoval : W → Nat → Bool
  isStatic : W → Nat → Bool
  Search : W → List C_BoxCollider → C_BoxCollider → List C_BoxCollider
  Intersects : W → C_BoxCollider → C_BoxCollider → Manifold
  ResolveOverlap : W → C_BoxCollider → Manifold → W
  OnCollisionEnter : W → Nat → C_BoxCollider → W
  OnCollisionStay : W → Nat → C_BoxCollider → W
  OnCollisionExit : W → Nat → C_BoxCollider → W
  sameKey : ColliderPair → ColliderPair → Bool

/-- The element comparison of a standard set of `std::pair`s: both components agree. -/
def stdPairKey (p q : ColliderPair) : Bool := decide (p = q)

/-! ## `std::map` keyed by `CollisionLayer` -/

/-- A `std::map<CollisionLayer, β>`: entries in increasing key order. -/
abbrev LayerMap (β : Type) := List (CollisionLayer × β)

/-- The call `m.find(k)`; `none` stands for `m.end()`. -/
def LayerMap.find {β : Type} : LayerMap β → CollisionLayer → Option β
  | [], _ => none
  | (k', v) :: rest, k => if k' = k then some v else LayerMap.find rest k

/-- The call `m.insert(std::make_pair(k, v))`: no effect when `k` has an entry. -/
def LayerMap.insert {β : Type} : LayerMap β → CollisionLayer → β → LayerMap β
  | [], k, v => [(k, v)]
  | (k', v') :: rest, k, v =>
    if k' = k then (k', v') :: rest
    else if k.toInt < k'.toInt then (k, v) :: (k', v') :: rest
    else (k', v') :: LayerMap.insert rest k v

/-- The expression `m[k]` of a non-const `std::map`: the mapped value, default-inserted
first when `k` has no entry.  Returns the value and the map afterwards. -/
def LayerMap.index {β : Type} (dflt : β) (m : LayerMap β) (k : CollisionLayer) :
    β × LayerMap β :=
  match LayerMap.find m k with
  | some v => (v, m)
  | none => (dflt, LayerMap.insert m k dflt)

/-- The statement `m[k].push_back(c)` for a key that `find` has located. -/
def LayerMap.pushBack :
    LayerMap (List C_BoxCollider) → CollisionLayer → C_BoxCollider →
      LayerMap (List C_BoxCollider)
  | [], _, _ => []
  | (k', b) :: rest, k, c =>
    if k' = k then (k', b ++ [c]) :: rest else (k', b) :: LayerMap.pushBack rest k c

/-! ## The system state -/

/-- The members of `S_Collidable` (`collisionLayers`, `collidables`, `objectsColliding`),
the contents of the referenced quadtree (`collisionTree`: colliders inserted since the last
`Clear`), the state of the rest of the game and the trace of outgoing calls. -/
structure S_Collidable (W : Type) where
  collisionLayers : LayerMap Bitmask
  collidables : LayerMap (List C_BoxCollider)
  objectsColliding : List ColliderPair
  collisionTree : List C_BoxCollider
  world : W
  trace : List Event

namespace S_Collidable

variable {W : Type}

/-- The matrix built by the constructor `S_Collidable::S_Collidable` (lines 5-20). -/
def defaultLayers : LayerMap Bitmask :=
  let defaultCollisions := Bitmask.zero.SetBit CollisionLayer.Default.toInt
  let m := LayerMap.insert [] CollisionLayer.Default defaultCollisions
  let m := LayerMap.insert m CollisionLayer.Tile Bitmask.zero
  let playerCollisions :=
    ((Bitmask.zero.SetBit CollisionLayer.Default.toInt).SetBit
      CollisionLayer.Tile.toInt).SetBit CollisionLayer.NPC.toInt
  let m := LayerMap.insert m CollisionLayer.Player playerCollisions
  let projectileCollisions :=
    (Bitmask.zero.SetBit CollisionLayer.Tile.toInt).SetBit CollisionLayer.NPC.toInt
  LayerMap.insert m CollisionLayer.Projectile projectileCollisions

/-- The constructor: the default matrix, no bucket, no colliding pair. -/
def new (w : W) : S_Collidable W :=
  { collisionLayers := defaultLayers
    collidables := []
    objectsColliding := []
    collisionTree := []
    world := w
    trace := [] }

/-- Record an outgoing call. -/
def emit (s : S_Collidable W) (e : Event) : S_Collidable W :=
  { s with trace := s.trace ++ [e] }

/-- The call `self->owner->OnCollisionEnter(other)`. -/
def fireEnter (E : Env W) (s : S_Collidable W) (self other : C_BoxCollider) :
    S_Collidable W :=
  { s with world := E.OnCollisionEnter s.world self.owner other
           trace := s.trace ++ [Event.OnCollisionEnter self other] }

/-- The call `self->owner->OnCollisionStay(other)`. -/
def fireStay (E : Env W) (s : S_Collidable W) (self other : C_BoxCollider) :
    S_Collidable W :=
  { s with world := E.OnCollisionStay s.world self.owner other
           trace := s.trace ++ [Event.OnCollisionStay self other] }

/-- The call `self->owner->OnCollisionExit(other)`. -/
def fireExit (E : Env W) (s : S_Collidable W) (self other : C_BoxCollider) :
    S_Collidable W :=
  { s with world := E.OnCollisionExit s.world self.owner other
           trace := s.trace ++ [Event.OnCollisionExit self other] }

/-- The call `c->ResolveOverlap(m)`. -/
def applyResolveOverlap (E : Env W) (s : S_Collidable W) (c : C_BoxCollider)
    (m : Manifold) : S_Collidable W :=
  { s with world := E.ResolveOverlap s.world c m
           trace := s.trace ++ [Event.ResolveOverlap c m] }

/-- The expression `collisionLayers[layer]`: the mask read, and the state after the
lookup (the map gains a default entry when `layer` had none). -/
def layerMask (s : S_Collidable W) (layer : CollisionLayer) : Bitmask × S_Collidable W :=
  let r := LayerMap.index Bitmask.zero s.collisionLayers layer
  (r.1, { s with collisionLayers := r.2 })

/-- The call `objectsColliding.emplace(p)`: the set afterwards and whether `p` was
inserted (the `.second` of the returned pair). -/
def emplace (E : Env W) (set : List ColliderPair) (p : ColliderPair) :
    List ColliderPair × Bool :=
  if set.any (E.sameKey p) then (set, false) else (set ++ [p], true)

/-! ## Operations -/

/-- One iteration of the loop of `Add` (lines 27-42). -/
def addObject (s : S_Collidable W) (o : Object) : S_Collidable W :=
  match o.collider with
  | none => s
  | some collider =>
    let layer := collider.layer
    match LayerMap.find s.collidables layer with
    | some _ => { s with collidables := LayerMap.pushBack s.collidables layer collider }
    | none => { s with collidables := LayerMap.insert s.collidables layer [collider] }

/-- The method `S_Collidable::Add`. -/
def Add (s : S_Collidable W) (objects : List Object) : S_Collidable W :=
  objects.foldl addObject s

/-- The inner `while` loop of `ProcessRemovals` over one bucket (lines 50-61). -/
def eraseQueued (E : Env W) (w : W) : List C_BoxCollider → List C_BoxCollider
  | [] => []
  | c :: rest =>
    if E.IsQueuedForRemoval w c.owner then eraseQueued E w rest
    else c :: eraseQueued E w rest

/-- The outer loop of `ProcessRemovals` over the buckets. -/
def eraseQueuedAll (E : Env W) (w : W) :
    LayerMap (List C_BoxCollider) → LayerMap (List C_BoxCollider)
  | [] => []
  | (layer, bucket) :: rest => (layer, eraseQueued E w bucket) :: eraseQueuedAll E w rest

/-- The method `S_Collidable::ProcessRemovals`. -/
def ProcessRemovals (E : Env W) (s : S_Collidable W) : S_Collidable W :=
  { s with collidables := eraseQueuedAll E s.world s.collidables }

/-- One iteration of the loop of `UpdatePositions` (lines 69-77).  The call
`collisionTree.UpdatePosition(collider)` repositions an entry of the index; which colliders
the index holds is left as it is. -/
def updatePosition (E : Env W) (s : S_Collidable W) (o : Object) : S_Collidable W :=
  if E.isStatic s.world o.instanceID then s
  else
    match o.collider with
    | some collider => s.emit (Event.UpdatePosition collider)
    | none => s

/-- The method `S_Collidable::UpdatePositions`. -/
def UpdatePositions (E : Env W) (s : S_Collidable W) (objects : List Object) :
    S_Collidable W :=
  objects.foldl (updatePosition E) s

/-- The body of the innermost loop of `Resolve` (lines 103-141) for the scanning collider
`collidable` and one candidate `collision`. -/
def resolveCandidate (E : Env W) (collidable : C_BoxCollider) (s : S_Collidable W)
    (collision : C_BoxCollider) : S_Collidable W :=
  if collidable.owner = collision.owner then s
  else
    let r := s.layerMask collidable.layer
    let s1 := r.2
    if r.1.GetBit collision.layer.toInt then
      let m := E.Intersects s1.world collidable collision
      let s2 := s1.emit (Event.Intersects collidable collision)
      if m.colliding then
        let collisionPair := emplace E s2.objectsColliding (collidable, collision)
        let s3 := { s2 with objectsColliding := collisionPair.1 }
        let s4 :=
          if collisionPair.2 then
            fireEnter E (fireEnter E s3 collidable collision) collision collidable
          else s3
        let s5 := (s4.emit (Event.DrawRect collision)).emit (Event.DrawRect collidable)
        if E.isStatic s5.world collision.owner then
          applyResolveOverlap E s5 collidable m
        else
          applyResolveOverlap E s5 collidable m
      else s2
    else s1

/-- The body of the middle loop of `Resolve` (lines 93-142) for one collider of a bucket. -/
def resolveCollidable (E : Env W) (s : S_Collidable W) (collidable : C_BoxCollider) :
    S_Collidable W :=
  if E.isStatic s.world collidable.owner then s
  else
    let collisions := E.Search s.world s.collisionTree collidable
    collisions.foldl (resolveCandidate E collidable) (s.emit (Event.Search collidable))

/-- The body of the outer loop of `Resolve` (lines 85-143) for one bucket. -/
def resolveLayer (E : Env W) (s : S_Collidable W)
    (maps : CollisionLayer × List C_BoxCollider) : S_Collidable W :=
  let r := s.layerMask maps.1
  if r.1.GetMask = 0 then r.2
  else maps.2.foldl (resolveCollidable E) r.2

/-- The method `S_Collidable::Resolve`. -/
def Resolve (E : Env W) (s : S_Collidable W) : S_Collidable W :=
  s.collidables.foldl (resolveLayer E) s

/-- The loop of `ProcessCollidingObjects` (lines 168-203) from the iterator position
whose remaining elements are the given list; `s.objectsColliding` is left alone here and
the surviving elements are returned next to the state. -/
def processPairs (E : Env W) :
    List ColliderPair → S_Collidable W → List ColliderPair × S_Collidable W
  | [], s => ([], s)
  | (first, second) :: rest, s =>
    if E.IsQueuedForRemoval s.world first.owner
        || E.IsQueuedForRemoval s.world second.owner then
      processPairs E rest (fireExit E (fireExit E s first second) second first)
    else
      let m := E.Intersects s.world first second
      let s1 := s.emit (Event.Intersects first second)
      if !m.colliding then
        processPairs E rest (fireExit E (fireExit E s1 first second) second first)
      else
        let r := processPairs E rest (fireStay E (fireStay E s1 first second) second first)
        ((first, second) :: r.1, r.2)

/-- The method `S_Collidable::ProcessCollidingObjects`. -/
def ProcessCollidingObjects (E : Env W) (s : S_Collidable W) : S_Collidable W :=
  let r := processPairs E s.objectsColliding s
  { r.2 with objectsColliding := r.1 }

/-- Modelled from the spec: `Quadtree` is outside the available sources; `Insert` adds the
collider to the entries of the index.  The call `collisionTree.Insert(collidable)`. -/
def treeInsert (s : S_Collidable W) (c : C_BoxCollider) : S_Collidable W :=
  { s with collisionTree := s.collisionTree ++ [c]
           trace := s.trace ++ [Event.Insert c] }

/-- Modelled from the spec: `Quadtree` is outside the available sources; `Clear` removes
all entries of the index.  The call `collisionTree.Clear()`. -/
def treeClear (s : S_Collidable W) : S_Collidable W :=
  { s with collisionTree := []
           trace := s.trace ++ [Event.Clear] }

/-- The rebuild loop of `Update` (lines 154-160). -/
def reinsertAll (s : S_Collidable W) : S_Collidable W :=
  s.collidables.foldl (fun acc maps => maps.2.foldl treeInsert acc) s

/-- The method `S_Collidable::Update`. -/
def Update (E : Env W) (s : S_Collidable W) : S_Collidable W :=
  Resolve E (reinsertAll (treeClear (ProcessCollidingObjects E (s.emit Event.DrawDebug))))

/-- The calls made between the state `before` and the later state `after`. -/
def fired (before after : S_Collidable W) : List Event :=
  after.trace.drop before.trace.length

end S_Collidable

/-! ## Runs of the system -/

/-- What can happen to the system: a call of one of its methods, or the rest of the game
changing its own state between two calls. -/
inductive Op (W : Type) where
  | Add (objects : List Object)
  | ProcessRemovals
  | UpdatePositions (objects : List Object)
  | Resolve
  | ProcessCollidingObjects
  | Update
  | External (f : W → W)

/-- Perform one `Op`. -/
def step {W : Type} (E : Env W) (s : S_Collidable W) : Op W → S_Collidable W
  | .Add objects => s.Add objects
  | .ProcessRemovals => s.ProcessRemovals E
  | .UpdatePositions objects => s.UpdatePositions E objects
  | .Resolve => s.Resolve E
  | .ProcessCollidingObjects => s.ProcessCollidingObjects E
  | .Update => s.Update E
  | .External f => { s with world := f s.world }

/-- Perform a sequence of `Op`s, first to last. -/
def run {W : Type} (E : Env W) (s : S_Collidable W) (ops : List (Op W)) : S_Collidable W :=
  ops.foldl (step E) s

/-! ## A small concrete game, used for evaluation -/

/-- An environment whose world is the list of owners queued for removal: the owners in
`statics` are static, `Search` returns every inserted collider, two colliders intersect
unless their identities are listed in `apart`, hooks and `ResolveOverlap` change nothing,
and the contact set compares its elements as `std::pair`s. -/
def demoEnv (statics : List Nat) (apart : List (Nat × Nat)) : Env (List Nat) :=
  { IsQueuedForRemoval := fun w o => decide (o ∈ w)
    isStatic := fun _ o => decide (o ∈ statics)
    Search := fun _ inserted _ => inserted
    Intersects := fun _ a b => ⟨decide ((a.id, b.id) ∉ apart), (2, 0)⟩
    ResolveOverlap := fun w _ _ => w
    OnCollisionEnter := fun w _ _ => w
    OnCollisionStay := fun w _ _ => w
    OnCollisionExit := fun w _ _ => w
    sameKey := stdPairKey }

/-- A collider on `Default`, owner 1. -/
def colA : C_BoxCollider := ⟨1, 1, CollisionLayer.Default⟩

/-- A collider on `Default`, owner 2. -/
def colB : C_BoxCollider := ⟨2, 2, CollisionLayer.Default⟩

/-- A collider on `Player`, owner 3. -/
def colP : C_BoxCollider := ⟨3, 3, CollisionLayer.Player⟩

/-- A collider on `Tile`, owner 4. -/
def colT : C_BoxCollider := ⟨4, 4, CollisionLayer.Tile⟩

/-- A collider on `NPC`, owner 5. -/
def colN : C_BoxCollider := ⟨5, 5, CollisionLayer.NPC⟩

/-- The freshly constructed system, no owner queued for removal. -/
def demoStart : S_Collidable (List Nat) := S_Collidable.new []

/-- The objects owning `colA` and `colB`. -/
def twoDefaultObjects : List Object := [⟨1, some colA⟩, ⟨2, some colB⟩]

/-- The objects owning `colP` and `colT`. -/
def playerTileObjects : List Object := [⟨3, some colP⟩, ⟨4, some colT⟩]

/-- The player has touched the static tile for one tick (the pair `(colP, colT)` is in the
contact set) and the owner of the tile has then been queued for removal. -/
def tileQueuedState : S_Collidable (List Nat) :=
  run (demoEnv [4] []) demoStart
    [Op.Add playerTileObjects, Op.Update, Op.External (fun _ => [4])]

/-- A state with three recorded contacts: `(colP, colT)` whose tile owner is queued for
removal, `(colA, colB)` and `(colP, colN)`. -/
def threeContactsState : S_Collidable (List Nat) :=
  { demoStart with
    objectsColliding := [(colP, colT), (colA, colB), (colP, colN)]
    world := [4] }

/-! ## Notions used in the statements -/

/-- Whether the hook calls of a trace alternate for `self`'s owner and `other`: no
`OnCollisionEnter(other)` reaches the owner of `self` while an earlier one has not been
followed by `OnCollisionExit(other)`.  The flag tells whether an enter is outstanding. -/
def entersAlternate (self other : C_BoxCollider) : List Event → Bool → Bool
  | [], _ => true
  | Event.OnCollisionEnter a b :: rest, outstanding =>
    if a = self ∧ b = other then !outstanding && entersAlternate self other rest true
    else entersAlternate self other rest outstanding
  | Event.OnCollisionExit a b :: rest, outstanding =>
    if a = self ∧ b = other then entersAlternate self other rest false
    else entersAlternate self other rest outstanding
  | _ :: rest, outstanding => entersAlternate self other rest outstanding

/-- The mask that `collisionLayers[layer]` reads from the matrix `m`. -/
def maskOf (m : LayerMap Bitmask) (layer : CollisionLayer) : Bitmask :=
  (LayerMap.index Bitmask.zero m layer).1

/-- The calls `Resolve` makes for a candidate `n` of the scanning collider `c` whose
manifold `m` is colliding; `isNew` tells whether `emplace` inserted the pair. -/
def contactCalls (c n : C_BoxCollider) (m : Manifold) (isNew : Bool) : List Event :=
  [Event.Intersects c n]
    ++ (if isNew then [Event.OnCollisionEnter c n, Event.OnCollisionEnter n c] else [])
    ++ [Event.DrawRect n, Event.DrawRect c, Event.ResolveOverlap c m]

/-- Traces made of the three things `Resolve` does: a `Search` for a scanning collider
allowed by `okScan`, an intersection test of a pair allowed by `ok` that does not collide,
and the calls for a colliding pair allowed by `ok`. -/
inductive ResolveCalls (okScan : C_BoxCollider → Prop)
    (ok : C_BoxCollider → C_BoxCollider → Prop) : List Event → Prop where
  | nil : ResolveCalls okScan ok []
  | search {t : List Event} (c : C_BoxCollider) :
      ResolveCalls okScan ok t → okScan c → ResolveCalls okScan ok (t ++ [Event.Search c])
  | miss {t : List Event} (c n : C_BoxCollider) :
      ResolveCalls okScan ok t → ok c n → ResolveCalls okScan ok (t ++ [Event.Intersects c n])
  | hit {t : List Event} (c n : C_BoxCollider) (m : Manifold) (isNew : Bool) :
      ResolveCalls okScan ok t → ok c n →
        ResolveCalls okScan ok (t ++ contactCalls c n m isNew)

/-- The state with the pair `p` added at the end of `objectsColliding`. -/
def insertPair {W : Type} (s : S_Collidable W) (p : ColliderPair) : S_Collidable W :=
  { s with objectsColliding := s.objectsColliding ++ [p] }

/-- The hooks and `ResolveOverlap` leave every removal flag as it is. -/
structure FlagsStable {W : Type} (E : Env W) : Prop where
  enter : ∀ w o c, E.IsQueuedForRemoval (E.OnCollisionEnter w o c) = E.IsQueuedForRemoval w
  stay : ∀ w o c, E.IsQueuedForRemoval (E.OnCollisionStay w o c) = E.IsQueuedForRemoval w
  exit : ∀ w o c, E.IsQueuedForRemoval (E.OnCollisionExit w o c) = E.IsQueuedForRemoval w
  overlap : ∀ w c m, E.IsQueuedForRemoval (E.ResolveOverlap w c m) = E.IsQueuedForRemoval w

/-- The stay and exit hooks change neither a removal flag nor the result of an
intersection test. -/
structure StayExitInert {W : Type} (E : Env W) : Prop where
  stayFlags : ∀ w o c, E.IsQueuedForRemoval (E.OnCollisionStay w o c) = E.IsQueuedForRemoval w
  exitFlags : ∀ w o c, E.IsQueuedForRemoval (E.OnCollisionExit w o c) = E.IsQueuedForRemoval w
  stayIntersects : ∀ w o c, E.Intersects (E.OnCollisionStay w o c) = E.Intersects w
  exitIntersects : ∀ w o c, E.Intersects (E.OnCollisionExit w o c) = E.Intersects w

/-- Whether the owner of a member of the pair is queued for removal. -/
def pairQueued {W : Type} (E : Env W) (w : W) (p : ColliderPair) : Bool :=
  E.IsQueuedForRemoval w p.1.owner || E.IsQueuedForRemoval w p.2.owner

/-- The pairs the contact re-evaluation is to keep: neither owner queued for removal and
`first->Intersects(second)` colliding. -/
def pairSurvives {W : Type} (E : Env W) (w : W) (p : ColliderPair) : Bool :=
  !pairQueued E w p && (E.Intersects w p.1 p.2).colliding

/-- The calls the contact re-evaluation is to make for one pair: for a pair with a queued
owner the two exit hooks and no intersection test; otherwise the test, followed by the two
stay hooks when colliding and the two exit hooks when not. -/
def pairCalls {W : Type} (E : Env W) (w : W) (p : ColliderPair) : List Event :=
  if pairQueued E w p then
    [Event.OnCollisionExit p.1 p.2, Event.OnCollisionExit p.2 p.1]
  else if (E.Intersects w p.1 p.2).colliding then
    [Event.Intersects p.1 p.2, Event.OnCollisionStay p.1 p.2, Event.OnCollisionStay p.2 p.1]
  else
    [Event.Intersects p.1 p.2, Event.OnCollisionExit p.1 p.2, Event.OnCollisionExit p.2 p.1]

/-- All colliders of all buckets, bucket after bucket. -/
def allColliders (m : LayerMap (List C_BoxCollider)) : List C_BoxCollider :=
  m.flatMap (fun maps => maps.2)

/-- The state in which `Update` calls `Resolve`. -/
def beforeResolve {W : Type} (E : Env W) (s : S_Collidable W) : S_Collidable W :=
  S_Collidable.reinsertAll
    (S_Collidable.treeClear (S_Collidable.ProcessCollidingObjects E (s.emit Event.DrawDebug)))

/-- Every collider sits in the bucket of its own layer. -/
def BucketsByLayer {W : Type} (s : S_Collidable W) : Prop :=
  ∀ e ∈ s.collidables, ∀ c ∈ e.2, c.layer = e.1

/-- The call `Search` returns only colliders inserted since the last `Clear`. -/
def SearchSound {W : Type} (E : Env W) : Prop :=
  ∀ w inserted c n, n ∈ E.Search w inserted c → n ∈ inserted

/-- The event does not insert, scan, test, notify of an enter or a stay, draw or correct a
collider whose owner has the flag `q`.  Exit hooks are not restricted. -/
def Event.sparesQueued (q : Nat → Bool) : Event → Prop
  | Event.Insert c => q c.owner = false
  | Event.Search c => q c.owner = false
  | Event.Intersects a b => q a.owner = false ∧ q b.owner = false
  | Event.OnCollisionEnter a b => q a.owner = false ∧ q b.owner = false
  | Event.OnCollisionStay a b => q a.owner = false ∧ q b.owner = false
  | Event.DrawRect c => q c.owner = false
  | Event.ResolveOverlap c _ => q c.owner = false
  | _ => True

/-- The bucket of a layer: the vector found under the key, empty when the layer has no
bucket. -/
def bucketOf (m : LayerMap (List C_BoxCollider)) (layer : CollisionLayer) :
    List C_BoxCollider :=
  (LayerMap.find m layer).getD []

/-- The colliders that a list of objects brings to the bucket of a layer: those of the
objects that have a collider, on that layer, in list order. -/
def collidersFor (objects : List Object) (layer : CollisionLayer) : List C_BoxCollider :=
  (objects.filterMap (fun o => o.collider)).filter (fun c => decide (c.layer = layer))

/-- The outgoing calls of the contact re-evaluation: an intersection test, a stay hook or
an exit hook. -/
def Event.isReevaluation : Event → Bool
  | Event.Intersects _ _ => true
  | Event.OnCollisionStay _ _ => true
  | Event.OnCollisionExit _ _ => true
  | _ => false

/-- A stay hook or an exit hook. -/
def Event.isStayOrExit : Event → Bool
  | Event.OnCollisionStay _ _ => true
  | Event.OnCollisionExit _ _ => true
  | _ => false

/-- The outgoing calls of `Resolve`: a search, an intersection test, an enter hook, a debug
rectangle or a correction. -/
def Event.isResolveCall : Event → Bool
  | Event.Search _ => true
  | Event.Intersects _ _ => true
  | Event.OnCollisionEnter _ _ => true
  | Event.DrawRect _ => true
  | Event.ResolveOverlap _ _ => true
  | _ => false

/-- The enter hooks and `ResolveOverlap` leave every static flag as it is. -/
structure StaticStable {W : Type} (E : Env W) : Prop where
  enter : ∀ w o c, E.isStatic (E.OnCollisionEnter w o c) = E.isStatic w
  overlap : ∀ w c m, E.isStatic (E.ResolveOverlap w c m) = E.isStatic w

/-- The observation `position` gives every object a position that `c->ResolveOverlap(m)`
changes for the owner of `c` at most and that the enter hooks do not change. -/
structure MovesOnlyOwner {W P : Type} (E : Env W) (position : W → Nat → P) : Prop where
  overlap : ∀ w c m o, o ≠ c.owner → position (E.ResolveOverlap w c m) o = position w o
  enter : ∀ w o c o', position (E.OnCollisionEnter w o c) o' = position w o'

/-- The states of the rest of the game that `Resolve` can pass through from `w0`: `w0`
itself and what enter hooks and `ResolveOverlap` calls make of such a state. -/
inductive ResolveWorld {W : Type} (E : Env W) (w0 : W) : W → Prop where
  | start : ResolveWorld E w0 w0
  | enter {w : W} (o : Nat) (c : C_BoxCollider) :
      ResolveWorld E w0 w → ResolveWorld E w0 (E.OnCollisionEnter w o c)
  | overlap {w : W} (c : C_BoxCollider) (m : Manifold) :
      ResolveWorld E w0 w → ResolveWorld E w0 (E.ResolveOverlap w c m)

/-- The collider `c` can be a scanning collider of `Resolve` in the state `s`: it is in a
bucket whose layer has a non-zero mask and its owner is not static. -/
def MayScan {W : Type} (E : Env W) (s : S_Collidable W) (c : C_BoxCollider) : Prop :=
  ∃ k b, (k, b) ∈ s.collidables ∧ c ∈ b ∧ (maskOf s.collisionLayers k).GetMask ≠ 0
    ∧ E.isStatic s.world c.owner = false

/-- What holds of a pair `(C, N)` that `Resolve` adds in the state `s`, without regard to
the moment: `C` is in a bucket whose layer has a non-zero mask, the owner of `C` is not
static in a state of the game that `Resolve` can pass through, the mask of `C`'s layer has
the bit of `N`'s layer, and `Intersects(C, N)` reports colliding in such a state.  The
moment of the scan and of the test is the subject of `AddedAt`. -/
def AddedByResolve {W : Type} (E : Env W) (s : S_Collidable W) (p : ColliderPair) : Prop :=
  (∃ k b, (k, b) ∈ s.collidables ∧ p.1 ∈ b ∧ (maskOf s.collisionLayers k).GetMask ≠ 0)
  ∧ (∃ w, ResolveWorld E s.world w ∧ E.isStatic w p.1.owner = false)
  ∧ (maskOf s.collisionLayers p.1.layer).GetBit p.2.layer.toInt = true
  ∧ ∃ w, ResolveWorld E s.world w ∧ (E.Intersects w p.1 p.2).colliding = true

/-- Whether the candidate `n` of the scanning collider `c` passes the self check and the
layer check and is reported colliding in the state `s`. -/
def candidateHit {W : Type} (E : Env W) (s : S_Collidable W) (c n : C_BoxCollider) : Bool :=
  decide (c.owner ≠ n.owner) && (maskOf s.collisionLayers c.layer).GetBit n.layer.toInt
    && (E.Intersects s.world c n).colliding

/-- The calls `Resolve` is to make for the candidate `n` of the scanning collider `c` in
the state `s`: none when the owners are the same or the mask of `c`'s layer lacks the bit of
`n`'s layer, the intersection test alone when it does not report colliding, and the calls of
`contactCalls` when it does. -/
def candidateCalls {W : Type} (E : Env W) (s : S_Collidable W) (c n : C_BoxCollider) :
    List Event :=
  if c.owner = n.owner then []
  else if (maskOf s.collisionLayers c.layer).GetBit n.layer.toInt then
    if (E.Intersects s.world c n).colliding then
      contactCalls c n (E.Intersects s.world c n)
        (S_Collidable.emplace E s.objectsColliding (c, n)).2
    else [Event.Intersects c n]
  else []

/-- The state of the rest of the game after the calls for a colliding candidate: after the
two enter hooks when the pair is new, then after `ResolveOverlap`. -/
def worldAfterContact {W : Type} (E : Env W) (s : S_Collidable W) (c n : C_BoxCollider) : W :=
  E.ResolveOverlap
    (if (S_Collidable.emplace E s.objectsColliding (c, n)).2 then
      E.OnCollisionEnter (E.OnCollisionEnter s.world c.owner n) n.owner c
    else s.world)
    c (E.Intersects s.world c n)

/-- The stay and exit hooks clear no removal flag: an object queued for removal before
such a hook is still queued after it. -/
structure QueuedStays {W : Type} (E : Env W) : Prop where
  stay : ∀ w o c o', E.IsQueuedForRemoval w o' = true →
    E.IsQueuedForRemoval (E.OnCollisionStay w o c) o' = true
  exit : ∀ w o c o', E.IsQueuedForRemoval w o' = true →
    E.IsQueuedForRemoval (E.OnCollisionExit w o c) o' = true

/-- What an outgoing call does to the rest of the game: the three hooks and
`ResolveOverlap` act as the environment says, every other call leaves it as it is. -/
def Event.effect {W : Type} (E : Env W) (w : W) : Event → W
  | Event.OnCollisionEnter self other => E.OnCollisionEnter w self.owner other
  | Event.OnCollisionStay self other => E.OnCollisionStay w self.owner other
  | Event.OnCollisionExit self other => E.OnCollisionExit w self.owner other
  | Event.ResolveOverlap c m => E.ResolveOverlap w c m
  | _ => w

/-- The rest of the game after the calls of `calls`, made in that order from `w`. -/
def worldAfter {W : Type} (E : Env W) (w : W) (calls : List Event) : W :=
  calls.foldl (Event.effect E) w

/-- The pairs of a contact set in the order of the walk, each with the rest of the game at
the moment the pair is visited: the first in `w`, every later one after the calls made for
the pairs before it. -/
def visits {W : Type} (E : Env W) : W → List ColliderPair → List (ColliderPair × W)
  | _, [] => []
  | w, p :: rest => (p, w) :: visits E (worldAfter E w (pairCalls E w p)) rest

/-- The pair `p` was added by a scan recorded in `calls`, started from `w0`: the calls are
some calls, then the `Search` for the first member, made while its owner was not static,
then further calls, then the calls for the colliding new pair, whose intersection test was
made right after the calls before it and reported colliding, then the remaining calls. -/
def AddedAt {W : Type} (E : Env W) (w0 : W) (calls : List Event) (p : ColliderPair) : Prop :=
  ∃ pre mid post,
    calls = (pre ++ Event.Search p.1 :: mid)
      ++ contactCalls p.1 p.2
          (E.Intersects (worldAfter E w0 (pre ++ Event.Search p.1 :: mid)) p.1 p.2) true
      ++ post
    ∧ E.isStatic (worldAfter E w0 pre) p.1.owner = false
    ∧ (E.Intersects (worldAfter E w0 (pre ++ Event.Search p.1 :: mid)) p.1 p.2).colliding
        = true

/-- How far `Resolve`, started in `s0`, has come in the state `s`, having made the calls
`new`: the trace is the old one followed by `new`, the rest of the game is what these calls
made of it, and the contact set is the old one followed by pairs that were each added by a
scan recorded in `new` (`AddedAt`). -/
def ResolveProgress {W : Type} (E : Env W) (s0 s : S_Collidable W) (new : List Event) :
    Prop :=
  s.trace = s0.trace ++ new
  ∧ s.world = worldAfter E s0.world new
  ∧ ∃ added, s.objectsColliding = s0.objectsColliding ++ added
      ∧ ∀ p ∈ added, AddedAt E s0.world new p

/-! ## Further concrete states -/

/-- A game on a line: the world gives every object the left end of its box, boxes are 10
wide, two boxes intersect when they overlap, the manifold carries the signed distance that
separates the first box from the second, and `ResolveOverlap` moves the owner by it.  The
owners in `statics` are static; nothing is queued for removal; hooks change nothing. -/
def lineEnv (statics : List Nat) : Env (Nat → Int) :=
  { IsQueuedForRemoval := fun _ _ => false
    isStatic := fun _ o => decide (o ∈ statics)
    Search := fun _ inserted _ => inserted
    Intersects := fun w a b =>
      if w a.owner ≤ w b.owner then
        ⟨decide (w b.owner < w a.owner + 10), (w b.owner - (w a.owner + 10), 0)⟩
      else
        ⟨decide (w a.owner < w b.owner + 10), (w b.owner + 10 - w a.owner, 0)⟩
    ResolveOverlap := fun w c m => Function.update w c.owner (w c.owner + m.overlap.1)
    OnCollisionEnter := fun w _ _ => w
    OnCollisionStay := fun w _ _ => w
    OnCollisionExit := fun w _ _ => w
    sameKey := stdPairKey }

/-- On the line: the player's box at 0, the static tile's box at 8 (they overlap by 2),
both registered and inserted in the index, no contact recorded: the state in which `Update`
calls `Resolve`. -/
def lineState : S_Collidable (Nat → Int) :=
  beforeResolve (lineEnv [4])
    ((S_Collidable.new (fun o => if o = 4 then 8 else 0)).Add playerTileObjects)

/-- The state in which `Update` calls `Resolve` for the two `Default` colliders. -/
def twoDefaultState : S_Collidable (List Nat) :=
  beforeResolve (demoEnv [] []) (demoStart.Add twoDefaultObjects)

/-- The state in which `Update` calls `Resolve` for the player and the static tile. -/
def playerTileState : S_Collidable (List Nat) :=
  beforeResolve (demoEnv [4] []) (demoStart.Add playerTileObjects)

/-- The objects owning `colP` and `colN`. -/
def playerNpcObjects : List Object := [⟨3, some colP⟩, ⟨5, some colN⟩]

/-- The freshly constructed system with the player and the `NPC` collider registered. -/
def playerNpcState : S_Collidable (List Nat) := demoStart.Add playerNpcObjects

/-- A world with removal flags and separations: the owners queued for removal and the
pairs of collider identities that have moved apart. -/
structure DemoWorld where
  queued : List Nat
  apart : List (Nat × Nat)
deriving DecidableEq, Repr

/-- A game in which an object removes itself when a contact of its ends: the exit hook
queues the object it is called on.  The owners in `statics` are static, `Search` returns
every inserted collider, two colliders intersect unless the world lists them as apart, and
the contact set compares its elements as `std::pair`s. -/
def selfRemovingEnv (statics : List Nat) : Env DemoWorld :=
  { IsQueuedForRemoval := fun w o => decide (o ∈ w.queued)
    isStatic := fun _ o => decide (o ∈ statics)
    Search := fun _ inserted _ => inserted
    Intersects := fun w a b => ⟨decide ((a.id, b.id) ∉ w.apart), (2, 0)⟩
    ResolveOverlap := fun w _ _ => w
    OnCollisionEnter := fun w _ _ => w
    OnCollisionStay := fun w _ _ => w
    OnCollisionExit := fun w o _ => { w with queued := o :: w.queued }
    sameKey := stdPairKey }

/-- The objects owning `colP`, `colT` and `colN`. -/
def playerTileNpcObjects : List Object := [⟨3, some colP⟩, ⟨4, some colT⟩, ⟨5, some colN⟩]

/-- In the self-removing game: the player has touched the static tile and the `NPC`
collider for one tick (contacts `(colP, colT)` and `(colP, colN)`), then has moved away from
the tile; nothing is queued for removal. -/
def leavingTileState : S_Collidable DemoWorld :=
  run (selfRemovingEnv [4]) (S_Collidable.new ⟨[], []⟩)
    [Op.Add playerTileNpcObjects, Op.Update,
      Op.External (fun w => { w with apart := [(3, 4)] })]

/-! ## Auxiliary facts -/

theorem foldl_preserves {α β : Type} (P : β → Prop) (f : β → α → β) (l : List α)
    (h : ∀ b a, a ∈ l → P b → P (f b a)) : ∀ b, P b → P (l.foldl f b) := by
  induction l with
  | nil => intro b hb; exact hb
  | cons x xs ih =>
    intro b hb
    simp only [List.foldl_cons]
    exact ih (fun b a ha hb => h b a (List.mem_cons_of_mem _ ha) hb) _
      (h b x (List.mem_cons_self _ _) hb)

theorem LayerMap.find_insert {β : Type} (m : LayerMap β) (k k' : CollisionLayer) (v : β)
    (hk : LayerMap.find m k = none) :
    LayerMap.find (LayerMap.insert m k v) k' = if k = k' then some v else LayerMap.find m k' := by
  induction m with
  | nil => simp [LayerMap.insert, LayerMap.find]
  | cons e rest ih =>
    obtain ⟨k0, v0⟩ := e
    by_cases h0 : k0 = k
    · simp [LayerMap.find, h0] at hk
    · have hk' : LayerMap.find rest k = none := by simpa [LayerMap.find, h0] using hk
      by_cases hlt : k.toInt < k0.toInt
      · simp [LayerMap.insert, LayerMap.find, h0, hlt]
      · simp only [LayerMap.insert, LayerMap.find, h0, hlt, if_false, ih hk']
        by_cases h1 : k0 = k'
        · have : k ≠ k' := fun h => h0 (h1.trans h.symm)
          simp [h1, this]
        · simp [h1]

theorem maskOf_eq (m : LayerMap Bitmask) (k : CollisionLayer) :
    maskOf m k = (LayerMap.find m k).getD Bitmask.zero := by
  unfold maskOf LayerMap.index
  cases LayerMap.find m k <;> rfl

theorem maskOf_index (m : LayerMap Bitmask) (k k' : CollisionLayer) :
    maskOf (LayerMap.index Bitmask.zero m k).2 k' = maskOf m k' := by
  rw [maskOf_eq, maskOf_eq]
  unfold LayerMap.index
  cases hk : LayerMap.find m k with
  | some v => rfl
  | none =>
    simp only [LayerMap.find_insert m k k' Bitmask.zero hk]
    by_cases h : k = k'
    · subst h; simp [hk]
    · simp [h]

theorem eraseQueued_eq_filter {W : Type} (E : Env W) (w : W) (l : List C_BoxCollider) :
    S_Collidable.eraseQueued E w l = l.filter (fun c => !E.IsQueuedForRemoval w c.owner) := by
  induction l with
  | nil => rfl
  | cons c rest ih =>
    by_cases h : E.IsQueuedForRemoval w c.owner = true
    · simp [S_Collidable.eraseQueued, h, ih]
    · simp [S_Collidable.eraseQueued, h, ih]

theorem eraseQueuedAll_eq_map {W : Type} (E : Env W) (w : W)
    (m : LayerMap (List C_BoxCollider)) :
    S_Collidable.eraseQueuedAll E w m
      = m.map (fun e => (e.1, e.2.filter (fun c => !E.IsQueuedForRemoval w c.owner))) := by
  induction m with
  | nil => rfl
  | cons e rest ih =>
    obtain ⟨k, b⟩ := e
    simp [S_Collidable.eraseQueuedAll, ih, eraseQueued_eq_filter]

/-! ### The shape of what `Resolve` does -/

theorem layerMask_fst {W : Type} (s : S_Collidable W) (k : CollisionLayer) :
    (s.layerMask k).1 = maskOf s.collisionLayers k := rfl

open S_Collidable in
theorem resolveCandidate_cases {W : Type} (E : Env W) (c n : C_BoxCollider)
    (s : S_Collidable W) :
    (c.owner = n.owner ∧ resolveCandidate E c s n = s)
    ∨ (c.owner ≠ n.owner
        ∧ (maskOf s.collisionLayers c.layer).GetBit n.layer.toInt = false
        ∧ resolveCandidate E c s n = (s.layerMask c.layer).2)
    ∨ (c.owner ≠ n.owner
        ∧ (maskOf s.collisionLayers c.layer).GetBit n.layer.toInt = true
        ∧ (E.Intersects s.world c n).colliding = false
        ∧ resolveCandidate E c s n = (s.layerMask c.layer).2.emit (Event.Intersects c n))
    ∨ (c.owner ≠ n.owner
        ∧ (maskOf s.collisionLayers c.layer).GetBit n.layer.toInt = true
        ∧ (E.Intersects s.world c n).colliding = true
        ∧ s.objectsColliding.any (E.sameKey (c, n)) = true
        ∧ resolveCandidate E c s n
          = applyResolveOverlap E
              ((((s.layerMask c.layer).2.emit (Event.Intersects c n)).emit
                (Event.DrawRect n)).emit (Event.DrawRect c))
              c (E.Intersects s.world c n))
    ∨ (c.owner ≠ n.owner
        ∧ (maskOf s.collisionLayers c.layer).GetBit n.layer.toInt = true
        ∧ (E.Intersects s.world c n).colliding = true
        ∧ s.objectsColliding.any (E.sameKey (c, n)) = false
        ∧ resolveCandidate E c s n
          = applyResolveOverlap E
              (((fireEnter E
                  (fireEnter E
                    (insertPair ((s.layerMask c.layer).2.emit (Event.Intersects c n)) (c, n))
                    c n) n c).emit (Event.DrawRect n)).emit (Event.DrawRect c))
              c (E.Intersects s.world c n)) := by
  by_cases h1 : c.owner = n.owner
  · left; exact ⟨h1, by simp [resolveCandidate, h1]⟩
  right
  cases h2 : (maskOf s.collisionLayers c.layer).GetBit n.layer.toInt
  · left
    refine ⟨h1, rfl, ?_⟩
    simp [resolveCandidate, h1, layerMask_fst, h2]
  right
  cases h3 : (E.Intersects s.world c n).colliding
  · left
    refine ⟨h1, rfl, rfl, ?_⟩
    simp only [resolveCandidate, h1, layerMask_fst, h2, if_true, if_false]
    simp [layerMask, emit, h3]
  right
  cases h4 : s.objectsColliding.any (E.sameKey (c, n))
  · right
    refine ⟨h1, rfl, rfl, rfl, ?_⟩
    simp only [resolveCandidate, h1, layerMask_fst, h2, if_true, if_false]
    simp [layerMask, emit, emplace, h3, h4, insertPair, fireEnter, applyResolveOverlap]
  · left
    refine ⟨h1, rfl, rfl, rfl, ?_⟩
    simp only [resolveCandidate, h1, layerMask_fst, h2, if_true, if_false]
    simp [layerMask, emit, emplace, h3, h4, fireEnter, applyResolveOverlap]

theorem fired_of_trace_eq {W : Type} (s s' : S_Collidable W) (new : List Event)
    (h : s'.trace = s.trace ++ new) : S_Collidable.fired s s' = new := by
  simp [S_Collidable.fired, h]

/-- A rule for `Resolve`.  A property `Inv` of the state that survives what `Resolve` does
to the state (a trace extension, a matrix lookup, the two enter hooks, `ResolveOverlap`, the
insertion of a pair allowed by `ok`) holds after `Resolve`, and the calls of `Resolve` form a
`ResolveCalls` trace, once every scanning collider is shown to satisfy `okScan` and every
tested candidate `ok`.  The facts available for that are the guards of the loops of
`Resolve`: the scanning collider is in a bucket whose layer has a non-zero mask and is not
static, the candidate comes out of `Search` on the current index, has another owner, and
the mask of the scanning collider's layer has the candidate's bit. -/
theorem Resolve_rule {W : Type} (E : Env W) (s0 : S_Collidable W)
    (Inv : S_Collidable W → Prop) (okScan : C_BoxCollider → Prop)
    (ok : C_BoxCollider → C_BoxCollider → Prop)
    (hTrace : ∀ s t, Inv s → Inv { s with trace := t })
    (hLayers : ∀ s k, Inv s → Inv (s.layerMask k).2)
    (hEnter : ∀ s o c, Inv s → Inv { s with world := E.OnCollisionEnter s.world o c })
    (hOverlap : ∀ s c m, Inv s → Inv { s with world := E.ResolveOverlap s.world c m })
    (hInsert : ∀ s c n, Inv s → ok c n → Inv (insertPair s (c, n)))
    (hScan : ∀ s k b c, Inv s → (k, b) ∈ s0.collidables → c ∈ b →
      (maskOf s0.collisionLayers k).GetMask ≠ 0 → E.isStatic s.world c.owner = false →
      okScan c)
    (hCand : ∀ s w c n, Inv s → okScan c → n ∈ E.Search w s0.collisionTree c →
      c.owner ≠ n.owner → (maskOf s0.collisionLayers c.layer).GetBit n.layer.toInt = true →
      ok c n)
    (h0 : Inv s0) :
    Inv (S_Collidable.Resolve E s0)
    ∧ (S_Collidable.Resolve E s0).collisionTree = s0.collisionTree
    ∧ (∀ k, maskOf (S_Collidable.Resolve E s0).collisionLayers k = maskOf s0.collisionLayers k)
    ∧ ∃ new, (S_Collidable.Resolve E s0).trace = s0.trace ++ new
        ∧ ResolveCalls okScan ok new := by
  -- the invariant carried through the three loops
  let K : S_Collidable W → Prop := fun s =>
    Inv s ∧ s.collisionTree = s0.collisionTree
      ∧ (∀ k, maskOf s.collisionLayers k = maskOf s0.collisionLayers k)
      ∧ ∃ new, s.trace = s0.trace ++ new ∧ ResolveCalls okScan ok new
  have kLayers : ∀ s k, K s → K (s.layerMask k).2 := by
    rintro s k ⟨hI, hT, hM, new, hN, hC⟩
    exact ⟨hLayers s k hI, hT, fun k' => (maskOf_index _ k k').trans (hM k'), new, hN, hC⟩
  have kCand : ∀ c, okScan c → ∀ s n, (∃ w, n ∈ E.Search w s0.collisionTree c) →
      K s → K (S_Collidable.resolveCandidate E c s n) := by
    intro c hc s n ⟨w, hn⟩ hK
    have hK1 := kLayers s c.layer hK
    obtain ⟨hI, hT, hM, new, hN, hC⟩ := hK1
    rcases resolveCandidate_cases E c n s with
      ⟨_, h⟩ | ⟨_, _, h⟩ | ⟨h1, h2, _, h⟩ | ⟨h1, h2, _, _, h⟩ | ⟨h1, h2, _, _, h⟩
    · rw [h]; exact hK
    · rw [h]; exact ⟨hI, hT, hM, new, hN, hC⟩
    · rw [h]
      have hok : ok c n := hCand s w c n hK.1 hc hn h1 (by rw [← hK.2.2.1]; exact h2)
      refine ⟨hTrace _ _ hI, hT, hM, new ++ [Event.Intersects c n], ?_, ?_⟩
      · simp [S_Collidable.emit, hN]
      · exact ResolveCalls.miss c n hC hok
    · rw [h]
      have hok : ok c n := hCand s w c n hK.1 hc hn h1 (by rw [← hK.2.2.1]; exact h2)
      refine ⟨?_, hT, hM, new ++ contactCalls c n (E.Intersects s.world c n) false, ?_, ?_⟩
      · exact hTrace _ _ (hOverlap _ c _ (hTrace _ _ (hTrace _ _ (hTrace _ _ hI))))
      · simp [S_Collidable.applyResolveOverlap, S_Collidable.emit, hN, contactCalls]
      · exact ResolveCalls.hit c n _ false hC hok
    · rw [h]
      have hok : ok c n := hCand s w c n hK.1 hc hn h1 (by rw [← hK.2.2.1]; exact h2)
      refine ⟨?_, hT, hM, new ++ contactCalls c n (E.Intersects s.world c n) true, ?_, ?_⟩
      · exact hTrace _ _ (hOverlap _ c _ (hTrace _ _ (hTrace _ _
          (hTrace _ _ (hEnter _ n.owner c (hTrace _ _ (hEnter _ c.owner n
            (hInsert _ c n (hTrace _ _ hI) hok))))))))
      · simp [S_Collidable.applyResolveOverlap, S_Collidable.emit, S_Collidable.fireEnter,
          insertPair, hN, contactCalls]
      · exact ResolveCalls.hit c n _ true hC hok
  have kCollidable : ∀ k b, (k, b) ∈ s0.collidables →
      (maskOf s0.collisionLayers k).GetMask ≠ 0 → ∀ s c, c ∈ b →
      K s → K (S_Collidable.resolveCollidable E s c) := by
    intro k b hkb hmask s c hcb hK
    unfold S_Collidable.resolveCollidable
    cases hst : E.isStatic s.world c.owner
    · have hc : okScan c := hScan s k b c hK.1 hkb hcb hmask hst
      simp only [Bool.false_eq_true, if_false]
      refine foldl_preserves K _ _ (fun s' n hn hK' => kCand c hc s' n ⟨s.world, ?_⟩ hK') _ ?_
      · rw [← hK.2.1]; exact hn
      · obtain ⟨hI, hT, hM, new, hN, hC⟩ := hK
        refine ⟨hTrace _ _ hI, hT, hM, new ++ [Event.Search c], ?_, ResolveCalls.search c hC hc⟩
        simp [S_Collidable.emit, hN]
    · simpa using hK
  have kLayer : ∀ s maps, maps ∈ s0.collidables → K s → K (S_Collidable.resolveLayer E s maps) := by
    intro s maps hmaps hK
    obtain ⟨k, b⟩ := maps
    have hK1 := kLayers s k hK
    unfold S_Collidable.resolveLayer
    by_cases hz : (s.layerMask k).1.GetMask = 0
    · simpa [hz] using hK1
    · simp only [hz, if_false]
      have hmask : (maskOf s0.collisionLayers k).GetMask ≠ 0 := by
        rw [← hK.2.2.1 k]; exact hz
      exact foldl_preserves K _ _ (fun s' c hc hK' => kCollidable k b hmaps hmask s' c hc hK') _ hK1
  exact foldl_preserves K _ _ (fun s maps hm hK' => kLayer s maps hm hK') s0
    ⟨h0, rfl, fun _ => rfl, [], by simp, ResolveCalls.nil⟩

/-! ### `ProcessCollidingObjects` -/

/-- A rule for the loop of `ProcessCollidingObjects`: a property of the state that survives
a trace extension and the stay and exit hooks holds for the state after the loop. -/
theorem processPairs_rule {W : Type} (E : Env W) (Inv : S_Collidable W → Prop)
    (hTrace : ∀ s t, Inv s → Inv { s with trace := t })
    (hStay : ∀ s o c, Inv s → Inv { s with world := E.OnCollisionStay s.world o c })
    (hExit : ∀ s o c, Inv s → Inv { s with world := E.OnCollisionExit s.world o c }) :
    ∀ (l : List ColliderPair) (s : S_Collidable W), Inv s →
      Inv (S_Collidable.processPairs E l s).2 := by
  have hx : ∀ s a b, Inv s → Inv (S_Collidable.fireExit E s a b) :=
    fun s a b h => hTrace _ _ (hExit s a.owner b h)
  have hy : ∀ s a b, Inv s → Inv (S_Collidable.fireStay E s a b) :=
    fun s a b h => hTrace _ _ (hStay s a.owner b h)
  intro l
  induction l with
  | nil => intro s h; exact h
  | cons p rest ih =>
    intro s h
    obtain ⟨a, b⟩ := p
    simp only [S_Collidable.processPairs]
    split
    · exact ih _ (hx _ _ _ (hx _ _ _ h))
    · split
      · exact ih _ (hx _ _ _ (hx _ _ _ (hTrace _ _ h)))
      · exact ih _ (hy _ _ _ (hy _ _ _ (hTrace _ _ h)))

theorem processPairs_sublist {W : Type} (E : Env W) :
    ∀ (l : List ColliderPair) (s : S_Collidable W),
      List.Sublist (S_Collidable.processPairs E l s).1 l := by
  intro l
  induction l with
  | nil => intro s; exact List.Sublist.slnil
  | cons p rest ih =>
    intro s
    obtain ⟨a, b⟩ := p
    simp only [S_Collidable.processPairs]
    split
    · exact List.Sublist.cons _ (ih _)
    · split
      · exact List.Sublist.cons _ (ih _)
      · exact List.Sublist.cons₂ _ (ih _)

theorem processPairs_exact {W : Type} (E : Env W) (hE : StayExitInert E) (w0 : W) :
    ∀ (l : List ColliderPair) (s : S_Collidable W),
      E.IsQueuedForRemoval s.world = E.IsQueuedForRemoval w0 →
      E.Intersects s.world = E.Intersects w0 →
      (S_Collidable.processPairs E l s).1 = l.filter (pairSurvives E w0)
      ∧ (S_Collidable.processPairs E l s).2.trace = s.trace ++ l.flatMap (pairCalls E w0) := by
  intro l
  induction l with
  | nil => intro s _ _; simp [S_Collidable.processPairs]
  | cons p rest ih =>
    intro s hq hi
    obtain ⟨a, b⟩ := p
    simp only [S_Collidable.processPairs, List.flatMap_cons]
    by_cases h1 : (E.IsQueuedForRemoval s.world a.owner
        || E.IsQueuedForRemoval s.world b.owner) = true
    · have h1' : pairQueued E w0 (a, b) = true := by
        simpa [pairQueued, hq] using h1
      have := ih (S_Collidable.fireExit E (S_Collidable.fireExit E s a b) b a)
        (by simp [S_Collidable.fireExit, hE.exitFlags, hq])
        (by simp [S_Collidable.fireExit, hE.exitIntersects, hi])
      rw [if_pos h1, this.1, this.2]
      simp [pairSurvives, pairCalls, h1', S_Collidable.fireExit]
    · have h1' : pairQueued E w0 (a, b) = false := by
        simpa [pairQueued, hq] using h1
      rw [if_neg h1]
      cases h2 : (E.Intersects s.world a b).colliding
      · have h2' : (E.Intersects w0 a b).colliding = false := by rw [← hi]; exact h2
        have := ih (S_Collidable.fireExit E (S_Collidable.fireExit E
            (s.emit (Event.Intersects a b)) a b) b a)
          (by simp [S_Collidable.fireExit, S_Collidable.emit, hE.exitFlags, hq])
          (by simp [S_Collidable.fireExit, S_Collidable.emit, hE.exitIntersects, hi])
        simp only [Bool.not_false, if_true, this.1, this.2]
        simp [pairSurvives, pairCalls, h1', h2', S_Collidable.fireExit, S_Collidable.emit]
      · have h2' : (E.Intersects w0 a b).colliding = true := by rw [← hi]; exact h2
        have := ih (S_Collidable.fireStay E (S_Collidable.fireStay E
            (s.emit (Event.Intersects a b)) a b) b a)
          (by simp [S_Collidable.fireStay, S_Collidable.emit, hE.stayFlags, hq])
          (by simp [S_Collidable.fireStay, S_Collidable.emit, hE.stayIntersects, hi])
        simp only [Bool.not_true, Bool.false_eq_true, if_false, this.1, this.2]
        simp [pairSurvives, pairCalls, h1', h2', S_Collidable.fireStay, S_Collidable.emit]

/-! ### The index rebuild and the shape of `Update` -/

theorem foldl_treeInsert {W : Type} (b : List C_BoxCollider) :
    ∀ acc : S_Collidable W,
      b.foldl S_Collidable.treeInsert acc
        = { acc with collisionTree := acc.collisionTree ++ b
                     trace := acc.trace ++ b.map Event.Insert } := by
  induction b with
  | nil => intro acc; cases acc; simp
  | cons c rest ih => intro acc; simp [ih, S_Collidable.treeInsert]

theorem foldl_reinsert {W : Type} (m : LayerMap (List C_BoxCollider)) :
    ∀ acc : S_Collidable W,
      m.foldl (fun acc maps => maps.2.foldl S_Collidable.treeInsert acc) acc
        = { acc with collisionTree := acc.collisionTree ++ allColliders m
                     trace := acc.trace ++ (allColliders m).map Event.Insert } := by
  induction m with
  | nil => intro acc; cases acc; simp [allColliders]
  | cons e rest ih =>
    intro acc
    rw [List.foldl_cons, foldl_treeInsert, ih]
    simp [allColliders]

theorem Update_eq {W : Type} (E : Env W) (s : S_Collidable W) :
    s.Update E = S_Collidable.Resolve E (beforeResolve E s) := rfl

theorem processPairs_frame {W : Type} (E : Env W) (l : List ColliderPair)
    (s : S_Collidable W) :
    (S_Collidable.processPairs E l s).2.collisionLayers = s.collisionLayers
    ∧ (S_Collidable.processPairs E l s).2.collidables = s.collidables
    ∧ (S_Collidable.processPairs E l s).2.collisionTree = s.collisionTree :=
  processPairs_rule E
    (fun s' => s'.collisionLayers = s.collisionLayers ∧ s'.collidables = s.collidables
      ∧ s'.collisionTree = s.collisionTree)
    (fun _ _ h => h) (fun _ _ _ h => h) (fun _ _ _ h => h) l s ⟨rfl, rfl, rfl⟩

theorem beforeResolve_fields {W : Type} (E : Env W) (s : S_Collidable W) :
    (beforeResolve E s).collisionLayers = s.collisionLayers
    ∧ (beforeResolve E s).collidables = s.collidables
    ∧ (beforeResolve E s).objectsColliding
        = (S_Collidable.processPairs E s.objectsColliding (s.emit Event.DrawDebug)).1
    ∧ (beforeResolve E s).collisionTree = allColliders s.collidables
    ∧ (beforeResolve E s).world
        = (S_Collidable.processPairs E s.objectsColliding (s.emit Event.DrawDebug)).2.world
    ∧ (beforeResolve E s).trace
        = (S_Collidable.processPairs E s.objectsColliding (s.emit Event.DrawDebug)).2.trace
            ++ Event.Clear :: (allColliders s.collidables).map Event.Insert := by
  have hf := processPairs_frame E s.objectsColliding (s.emit Event.DrawDebug)
  have hc : (S_Collidable.processPairs E s.objectsColliding (s.emit Event.DrawDebug)).2.collidables
      = s.collidables := hf.2.1
  unfold beforeResolve S_Collidable.reinsertAll
  rw [foldl_reinsert]
  simp only [S_Collidable.treeClear, S_Collidable.ProcessCollidingObjects]
  have hc' : (S_Collidable.processPairs E (s.emit Event.DrawDebug).objectsColliding
      (s.emit Event.DrawDebug)).2.collidables = s.collidables := hc
  refine ⟨hf.1, hc, rfl, ?_, rfl, ?_⟩
  · simp only [hc', List.nil_append]
  · simp only [hc', List.append_assoc, List.singleton_append]
    rfl

/-- Every event of a `ResolveCalls` trace has a property that the three kinds of steps
give to their events. -/
theorem ResolveCalls.forall_mem {okScan : C_BoxCollider → Prop}
    {ok : C_BoxCollider → C_BoxCollider → Prop} (P : Event → Prop)
    (hS : ∀ c, okScan c → P (Event.Search c))
    (hM : ∀ c n, ok c n → P (Event.Intersects c n))
    (hH : ∀ c n m isNew, ok c n → ∀ e ∈ contactCalls c n m isNew, P e)
    {t : List Event} (ht : ResolveCalls okScan ok t) : ∀ e ∈ t, P e := by
  induction ht with
  | nil => intro e he; simp at he
  | search c _ hc ih =>
    intro e he
    rcases List.mem_append.mp he with h | h
    · exact ih e h
    · rw [List.mem_singleton.mp h]; exact hS c hc
  | miss c n _ hc ih =>
    intro e he
    rcases List.mem_append.mp he with h | h
    · exact ih e h
    · rw [List.mem_singleton.mp h]; exact hM c n hc
  | hit c n m isNew _ hc ih =>
    intro e he
    rcases List.mem_append.mp he with h | h
    · exact ih e h
    · exact hH c n m isNew hc e h

/-! ### What each operation leaves alone -/

theorem Add_frame {W : Type} (s : S_Collidable W) (objects : List Object) :
    (s.Add objects).collisionLayers = s.collisionLayers
    ∧ (s.Add objects).objectsColliding = s.objectsColliding
    ∧ (s.Add objects).collisionTree = s.collisionTree
    ∧ (s.Add objects).world = s.world
    ∧ (s.Add objects).trace = s.trace := by
  refine foldl_preserves
    (fun s' => s'.collisionLayers = s.collisionLayers
      ∧ s'.objectsColliding = s.objectsColliding ∧ s'.collisionTree = s.collisionTree
      ∧ s'.world = s.world ∧ s'.trace = s.trace) _ _ ?_ s ⟨rfl, rfl, rfl, rfl, rfl⟩
  intro b o _ hb
  unfold S_Collidable.addObject
  cases o.collider with
  | none => exact hb
  | some c =>
    simp only
    cases LayerMap.find b.collidables c.layer <;> exact hb

theorem UpdatePositions_frame {W : Type} (E : Env W) (s : S_Collidable W)
    (objects : List Object) :
    (s.UpdatePositions E objects).collisionLayers = s.collisionLayers
    ∧ (s.UpdatePositions E objects).collidables = s.collidables
    ∧ (s.UpdatePositions E objects).objectsColliding = s.objectsColliding
    ∧ (s.UpdatePositions E objects).collisionTree = s.collisionTree
    ∧ (s.UpdatePositions E objects).world = s.world := by
  refine foldl_preserves
    (fun s' => s'.collisionLayers = s.collisionLayers ∧ s'.collidables = s.collidables
      ∧ s'.objectsColliding = s.objectsColliding ∧ s'.collisionTree = s.collisionTree
      ∧ s'.world = s.world) _ _ ?_ s ⟨rfl, rfl, rfl, rfl, rfl⟩
  intro b o _ hb
  unfold S_Collidable.updatePosition
  split
  · exact hb
  · cases o.collider <;> exact hb

theorem Resolve_collidables {W : Type} (E : Env W) (s : S_Collidable W) :
    (s.Resolve E).collidables = s.collidables :=
  (Resolve_rule E s (fun s' => s'.collidables = s.collidables) (fun _ => True)
    (fun _ _ => True) (fun _ _ h => h) (fun _ _ h => h) (fun _ _ _ h => h)
    (fun _ _ _ h => h) (fun _ _ _ h _ => h) (fun _ _ _ _ _ _ _ _ _ => trivial)
    (fun _ _ _ _ _ _ _ _ _ => trivial) rfl).1

theorem Update_collidables {W : Type} (E : Env W) (s : S_Collidable W) :
    (s.Update E).collidables = s.collidables := by
  rw [Update_eq, Resolve_collidables]
  exact (beforeResolve_fields E s).2.1

theorem step_collidables {W : Type} (E : Env W) (s : S_Collidable W) (op : Op W) :
    (∃ objects, op = Op.Add objects) ∨ op = Op.ProcessRemovals
    ∨ (step E s op).collidables = s.collidables := by
  cases op with
  | Add objects => exact Or.inl ⟨objects, rfl⟩
  | ProcessRemovals => exact Or.inr (Or.inl rfl)
  | UpdatePositions objects => exact Or.inr (Or.inr (UpdatePositions_frame E s objects).2.1)
  | Resolve => exact Or.inr (Or.inr (Resolve_collidables E s))
  | ProcessCollidingObjects =>
    exact Or.inr (Or.inr (processPairs_frame E s.objectsColliding s).2.1)
  | Update => exact Or.inr (Or.inr (Update_collidables E s))
  | External f => exact Or.inr (Or.inr rfl)

/-- What `Resolve` does to the contact set and which calls it makes, as far as owners go:
every pair it adds has two different owners, and its calls are those for pairs with two
different owners. -/
theorem Resolve_owners {W : Type} (E : Env W) (s : S_Collidable W) :
    (∀ p ∈ (s.Resolve E).objectsColliding, p ∈ s.objectsColliding ∨ p.1.owner ≠ p.2.owner)
    ∧ ∃ new, (s.Resolve E).trace = s.trace ++ new
        ∧ ResolveCalls (fun _ => True) (fun c n => c.owner ≠ n.owner) new := by
  have h := Resolve_rule E s
    (fun s' => ∀ p ∈ s'.objectsColliding, p ∈ s.objectsColliding ∨ p.1.owner ≠ p.2.owner)
    (fun _ => True) (fun c n => c.owner ≠ n.owner)
    (fun _ _ h => h) (fun _ _ h => h) (fun _ _ _ h => h) (fun _ _ _ h => h)
    (by
      intro s' c n h hcn p hp
      simp only [insertPair, List.mem_append, List.mem_singleton] at hp
      rcases hp with hp | hp
      · exact h p hp
      · subst hp; exact Or.inr hcn)
    (fun _ _ _ _ _ _ _ _ _ => trivial)
    (fun _ _ _ _ _ _ _ hne _ => hne)
    (fun p hp => Or.inl hp)
  exact ⟨h.1, h.2.2.2⟩

/-- A property of contact pairs that every pair of colliders with different owners has is
kept by every operation. -/
theorem step_contacts {W : Type} (E : Env W) (P : ColliderPair → Prop)
    (hP : ∀ p : ColliderPair, p.1.owner ≠ p.2.owner → P p) (s : S_Collidable W) (op : Op W)
    (h : ∀ p ∈ s.objectsColliding, P p) : ∀ p ∈ (step E s op).objectsColliding, P p := by
  have hres : ∀ s' : S_Collidable W, (∀ p ∈ s'.objectsColliding, P p) →
      ∀ p ∈ (s'.Resolve E).objectsColliding, P p := by
    intro s' h' p hp
    rcases (Resolve_owners E s').1 p hp with h1 | h1
    · exact h' p h1
    · exact hP p h1
  cases op with
  | Add objects => intro p hp; exact h p (by rw [← (Add_frame s objects).2.1]; exact hp)
  | ProcessRemovals => exact h
  | UpdatePositions objects =>
    intro p hp; exact h p (by rw [← (UpdatePositions_frame E s objects).2.2.1]; exact hp)
  | Resolve => exact hres s h
  | ProcessCollidingObjects =>
    intro p hp
    exact h p ((processPairs_sublist E s.objectsColliding s).subset hp)
  | Update =>
    refine hres (beforeResolve E s) ?_
    intro p hp
    rw [(beforeResolve_fields E s).2.2.1] at hp
    exact h p ((processPairs_sublist E s.objectsColliding _).subset hp)
  | External f => exact h

theorem run_preserves {W : Type} (E : Env W) (P : S_Collidable W → Prop)
    (hstep : ∀ s op, P s → P (step E s op)) (ops : List (Op W)) :
    ∀ s, P s → P (run E s ops) :=
  foldl_preserves P (step E) ops (fun s op _ h => hstep s op h)

/-! ### Buckets hold colliders of their own layer -/

theorem LayerMap.mem_insert {β : Type} (m : LayerMap β) (k : CollisionLayer) (v : β)
    (e : CollisionLayer × β) (he : e ∈ LayerMap.insert m k v) : e ∈ m ∨ e = (k, v) := by
  induction m with
  | nil => right; simpa [LayerMap.insert] using he
  | cons e0 rest ih =>
    obtain ⟨k0, v0⟩ := e0
    unfold LayerMap.insert at he
    split at he
    · exact Or.inl he
    · split at he
      · rcases List.mem_cons.mp he with h | h
        · exact Or.inr h
        · exact Or.inl h
      · rcases List.mem_cons.mp he with h | h
        · exact Or.inl (h ▸ List.mem_cons_self _ _)
        · rcases ih h with h' | h'
          · exact Or.inl (List.mem_cons_of_mem _ h')
          · exact Or.inr h'

theorem LayerMap.mem_pushBack (m : LayerMap (List C_BoxCollider)) (k : CollisionLayer)
    (c : C_BoxCollider) (e : CollisionLayer × List C_BoxCollider)
    (he : e ∈ LayerMap.pushBack m k c) :
    e ∈ m ∨ ∃ b, (k, b) ∈ m ∧ e = (k, b ++ [c]) := by
  induction m with
  | nil => simp [LayerMap.pushBack] at he
  | cons e0 rest ih =>
    obtain ⟨k0, b0⟩ := e0
    unfold LayerMap.pushBack at he
    split at he
    · rename_i hk
      rcases List.mem_cons.mp he with h | h
      · exact Or.inr ⟨b0, by rw [← hk]; exact List.mem_cons_self _ _, by rw [h, hk]⟩
      · exact Or.inl (List.mem_cons_of_mem _ h)
    · rcases List.mem_cons.mp he with h | h
      · exact Or.inl (h ▸ List.mem_cons_self _ _)
      · rcases ih h with h' | ⟨b, hb, hb'⟩
        · exact Or.inl (List.mem_cons_of_mem _ h')
        · exact Or.inr ⟨b, List.mem_cons_of_mem _ hb, hb'⟩

theorem step_bucketsByLayer {W : Type} (E : Env W) (s : S_Collidable W) (op : Op W)
    (h : BucketsByLayer s) : BucketsByLayer (step E s op) := by
  rcases step_collidables E s op with ⟨objects, rfl⟩ | rfl | hc
  · refine foldl_preserves BucketsByLayer _ objects ?_ s h
    intro s' o _ h'
    unfold S_Collidable.addObject
    cases o.collider with
    | none => exact h'
    | some c =>
      simp only
      cases LayerMap.find s'.collidables c.layer with
      | some _ =>
        intro e he x hx
        rcases LayerMap.mem_pushBack _ _ _ e he with h1 | ⟨b, hb, rfl⟩
        · exact h' e h1 x hx
        · rcases List.mem_append.mp hx with h2 | h2
          · exact h' _ hb x h2
          · rw [List.mem_singleton.mp h2]
      | none =>
        intro e he x hx
        rcases LayerMap.mem_insert _ _ _ e he with h1 | rfl
        · exact h' e h1 x hx
        · rw [List.mem_singleton.mp hx]
  · intro e he x hx
    simp only [step, S_Collidable.ProcessRemovals, eraseQueuedAll_eq_map, List.mem_map] at he
    obtain ⟨e0, he0, rfl⟩ := he
    exact h e0 he0 x (List.mem_filter.mp hx).1
  · intro e he x hx
    rw [hc] at he
    exact h e he x hx

/-- On buckets that hold colliders of their own layer, `Resolve` scans only colliders
whose layer has a non-zero mask: the pairs it adds have such a first member, and its calls
are those of scans by such colliders. -/
theorem Resolve_scanners {W : Type} (E : Env W) (s : S_Collidable W)
    (hs : BucketsByLayer s) :
    (∀ p ∈ (s.Resolve E).objectsColliding,
      p ∈ s.objectsColliding ∨ (maskOf s.collisionLayers p.1.layer).GetMask ≠ 0)
    ∧ ∃ new, (s.Resolve E).trace = s.trace ++ new
        ∧ ResolveCalls (fun c => (maskOf s.collisionLayers c.layer).GetMask ≠ 0)
            (fun c _ => (maskOf s.collisionLayers c.layer).GetMask ≠ 0) new := by
  have h := Resolve_rule E s
    (fun s' => ∀ p ∈ s'.objectsColliding,
      p ∈ s.objectsColliding ∨ (maskOf s.collisionLayers p.1.layer).GetMask ≠ 0)
    (fun c => (maskOf s.collisionLayers c.layer).GetMask ≠ 0)
    (fun c _ => (maskOf s.collisionLayers c.layer).GetMask ≠ 0)
    (fun _ _ h => h) (fun _ _ h => h) (fun _ _ _ h => h) (fun _ _ _ h => h)
    (by
      intro s' c n h hcn p hp
      simp only [insertPair, List.mem_append, List.mem_singleton] at hp
      rcases hp with hp | hp
      · exact h p hp
      · subst hp; exact Or.inr hcn)
    (by
      intro s' k b c _ hkb hcb hmask _
      rw [hs (k, b) hkb c hcb]
      exact hmask)
    (fun _ _ _ _ _ hc _ _ _ => hc)
    (fun p hp => Or.inl hp)
  exact ⟨h.1, h.2.2.2⟩

/-! ### Colliders whose owner is queued for removal -/

open S_Collidable in
theorem processPairs_cons_cases {W : Type} (E : Env W) (a b : C_BoxCollider)
    (rest : List ColliderPair) (s : S_Collidable W) :
    (pairQueued E s.world (a, b) = true
      ∧ processPairs E ((a, b) :: rest) s
        = processPairs E rest (fireExit E (fireExit E s a b) b a))
    ∨ (pairQueued E s.world (a, b) = false ∧ (E.Intersects s.world a b).colliding = false
      ∧ processPairs E ((a, b) :: rest) s
        = processPairs E rest
            (fireExit E (fireExit E (s.emit (Event.Intersects a b)) a b) b a))
    ∨ (pairQueued E s.world (a, b) = false ∧ (E.Intersects s.world a b).colliding = true
      ∧ processPairs E ((a, b) :: rest) s
        = ((a, b) :: (processPairs E rest
              (fireStay E (fireStay E (s.emit (Event.Intersects a b)) a b) b a)).1,
            (processPairs E rest
              (fireStay E (fireStay E (s.emit (Event.Intersects a b)) a b) b a)).2)) := by
  cases h1 : pairQueued E s.world (a, b)
  · right
    have h1' : (E.IsQueuedForRemoval s.world a.owner
        || E.IsQueuedForRemoval s.world b.owner) = false := h1
    cases h2 : (E.Intersects s.world a b).colliding
    · left; simp [processPairs, h1', h2]
    · right; simp [processPairs, h1', h2]
  · left
    have h1' : (E.IsQueuedForRemoval s.world a.owner
        || E.IsQueuedForRemoval s.world b.owner) = true := h1
    simp [processPairs, h1']

theorem processPairs_flags {W : Type} (E : Env W) (hE : FlagsStable E) (q : Nat → Bool) :
    ∀ (l : List ColliderPair) (s : S_Collidable W), E.IsQueuedForRemoval s.world = q →
      E.IsQueuedForRemoval (S_Collidable.processPairs E l s).2.world = q
      ∧ (∀ p ∈ (S_Collidable.processPairs E l s).1, q p.1.owner = false ∧ q p.2.owner = false)
      ∧ ∃ new, (S_Collidable.processPairs E l s).2.trace = s.trace ++ new
          ∧ (∀ e ∈ new, e.sparesQueued q)
          ∧ (∀ a b, Event.OnCollisionEnter a b ∉ new) := by
  intro l
  induction l with
  | nil =>
    intro s hq
    exact ⟨hq, by simp [S_Collidable.processPairs], [], by simp [S_Collidable.processPairs],
      by simp, by simp⟩
  | cons p rest ih =>
    intro s hq
    obtain ⟨a, b⟩ := p
    rcases processPairs_cons_cases E a b rest s with ⟨_, h⟩ | ⟨h1, _, h⟩ | ⟨h1, _, h⟩
    · rw [h]
      obtain ⟨hw, hk, new, hn, hs, hne⟩ :=
        ih (S_Collidable.fireExit E (S_Collidable.fireExit E s a b) b a)
          (by simp [S_Collidable.fireExit, hE.exit, hq])
      refine ⟨hw, hk, [Event.OnCollisionExit a b, Event.OnCollisionExit b a] ++ new, ?_, ?_, ?_⟩
      · rw [hn]; simp [S_Collidable.fireExit]
      · intro e he
        rcases List.mem_append.mp he with h' | h'
        · simp at h'; rcases h' with rfl | rfl <;> trivial
        · exact hs e h'
      · intro x y hxy
        rcases List.mem_append.mp hxy with h' | h'
        · simp at h'
        · exact hne x y h'
    · rw [h]
      have hab : q a.owner = false ∧ q b.owner = false := by
        simpa [pairQueued, hq] using h1
      obtain ⟨hw, hk, new, hn, hs, hne⟩ :=
        ih (S_Collidable.fireExit E (S_Collidable.fireExit E
            (s.emit (Event.Intersects a b)) a b) b a)
          (by simp [S_Collidable.fireExit, S_Collidable.emit, hE.exit, hq])
      refine ⟨hw, hk, [Event.Intersects a b, Event.OnCollisionExit a b,
        Event.OnCollisionExit b a] ++ new, ?_, ?_, ?_⟩
      · rw [hn]; simp [S_Collidable.fireExit, S_Collidable.emit]
      · intro e he
        rcases List.mem_append.mp he with h' | h'
        · simp at h'; rcases h' with rfl | rfl | rfl
          · exact hab
          · trivial
          · trivial
        · exact hs e h'
      · intro x y hxy
        rcases List.mem_append.mp hxy with h' | h'
        · simp at h'
        · exact hne x y h'
    · rw [h]
      have hab : q a.owner = false ∧ q b.owner = false := by
        simpa [pairQueued, hq] using h1
      obtain ⟨hw, hk, new, hn, hs, hne⟩ :=
        ih (S_Collidable.fireStay E (S_Collidable.fireStay E
            (s.emit (Event.Intersects a b)) a b) b a)
          (by simp [S_Collidable.fireStay, S_Collidable.emit, hE.stay, hq])
      refine ⟨hw, ?_, [Event.Intersects a b, Event.OnCollisionStay a b,
        Event.OnCollisionStay b a] ++ new, ?_, ?_, ?_⟩
      · intro p hp
        rcases List.mem_cons.mp hp with h' | h'
        · rw [h']; exact hab
        · exact hk p h'
      · rw [hn]; simp [S_Collidable.fireStay, S_Collidable.emit]
      · intro e he
        rcases List.mem_append.mp he with h' | h'
        · simp at h'; rcases h' with rfl | rfl | rfl
          · exact hab
          · exact hab
          · exact ⟨hab.2, hab.1⟩
        · exact hs e h'
      · intro x y hxy
        rcases List.mem_append.mp hxy with h' | h'
        · simp at h'
        · exact hne x y h'

theorem contactCalls_spare (q : Nat → Bool) (c n : C_BoxCollider) (m : Manifold)
    (isNew : Bool) (hc : q c.owner = false) (hn : q n.owner = false) :
    ∀ e ∈ contactCalls c n m isNew, e.sparesQueued q := by
  intro e he
  cases isNew <;> simp [contactCalls] at he
  · rcases he with rfl | rfl | rfl | rfl
    · exact ⟨hc, hn⟩
    · exact hn
    · exact hc
    · exact hc
  · rcases he with rfl | rfl | rfl | rfl | rfl | rfl
    · exact ⟨hc, hn⟩
    · exact ⟨hc, hn⟩
    · exact ⟨hn, hc⟩
    · exact hn
    · exact hc
    · exact hc

/-- One `Update` on buckets without a collider of a queued owner, when `Search` returns
only inserted colliders and hooks and `ResolveOverlap` leave the removal flags alone: the
flags are the same afterwards, no pair of the contact set and no collider in the index has
a queued owner, and no call of the tick other than an exit hook involves such a collider. -/
theorem Update_spares {W : Type} (E : Env W) (hE : FlagsStable E) (hS : SearchSound E)
    (s : S_Collidable W)
    (hB : ∀ c ∈ allColliders s.collidables, E.IsQueuedForRemoval s.world c.owner = false) :
    E.IsQueuedForRemoval (s.Update E).world = E.IsQueuedForRemoval s.world
    ∧ (∀ p ∈ (s.Update E).objectsColliding,
        E.IsQueuedForRemoval s.world p.1.owner = false
        ∧ E.IsQueuedForRemoval s.world p.2.owner = false)
    ∧ (∀ c ∈ (s.Update E).collisionTree, E.IsQueuedForRemoval s.world c.owner = false)
    ∧ ∃ new, (s.Update E).trace = s.trace ++ new
        ∧ ∀ e ∈ new, e.sparesQueued (E.IsQueuedForRemoval s.world) := by
  obtain ⟨hw, hk, new1, hn1, hs1, _⟩ :=
    processPairs_flags E hE (E.IsQueuedForRemoval s.world) s.objectsColliding
      (s.emit Event.DrawDebug) rfl
  obtain ⟨_, fC, fS, fT, fW, fTr⟩ := beforeResolve_fields E s
  have hR := Resolve_rule E (beforeResolve E s)
    (fun s' => E.IsQueuedForRemoval s'.world = E.IsQueuedForRemoval s.world
      ∧ ∀ p ∈ s'.objectsColliding, E.IsQueuedForRemoval s.world p.1.owner = false
          ∧ E.IsQueuedForRemoval s.world p.2.owner = false)
    (fun c => E.IsQueuedForRemoval s.world c.owner = false)
    (fun c n => E.IsQueuedForRemoval s.world c.owner = false
      ∧ E.IsQueuedForRemoval s.world n.owner = false)
    (fun _ _ h => h) (fun _ _ h => h)
    (fun s' o c h => ⟨(hE.enter s'.world o c).trans h.1, h.2⟩)
    (fun s' c m h => ⟨(hE.overlap s'.world c m).trans h.1, h.2⟩)
    (by
      intro s' c n h hcn
      refine ⟨h.1, ?_⟩
      intro p hp
      simp only [insertPair, List.mem_append, List.mem_singleton] at hp
      rcases hp with hp | hp
      · exact h.2 p hp
      · subst hp; exact hcn)
    (by
      intro s' k b c _ hkb hcb _ _
      rw [fC] at hkb
      exact hB c (List.mem_flatMap.mpr ⟨(k, b), hkb, hcb⟩))
    (by
      intro s' w c n _ hc hn _ _
      refine ⟨hc, hB n ?_⟩
      rw [← fT]
      exact hS w _ c n hn)
    ⟨by rw [fW]; exact hw, by rw [fS]; exact hk⟩
  obtain ⟨⟨hflags, hset⟩, htree, _, new2, hn2, hcalls⟩ := hR
  rw [Update_eq]
  refine ⟨hflags, hset, ?_, ?_⟩
  · intro c hc
    rw [htree, fT] at hc
    exact hB c hc
  · refine ⟨[Event.DrawDebug] ++ new1
      ++ Event.Clear :: (allColliders s.collidables).map Event.Insert ++ new2, ?_, ?_⟩
    · rw [hn2, fTr, hn1]
      simp [S_Collidable.emit]
    · intro e he
      simp only [List.mem_append, List.mem_cons, List.mem_map, List.mem_singleton,
        List.not_mem_nil, or_false] at he
      rcases he with ((rfl | he) | (rfl | ⟨c, hc, rfl⟩)) | he
      · trivial
      · exact hs1 e he
      · trivial
      · exact hB c hc
      · exact ResolveCalls.forall_mem (fun e => e.sparesQueued (E.IsQueuedForRemoval s.world))
          (fun c hc => hc) (fun c n hcn => hcn)
          (fun c n m isNew hcn => contactCalls_spare _ c n m isNew hcn.1 hcn.2) hcalls e he

theorem Resolve_exit_count {W : Type} (E : Env W) (s : S_Collidable W)
    (A B : C_BoxCollider) :
    List.count (Event.OnCollisionExit A B) (s.Resolve E).trace
      = List.count (Event.OnCollisionExit A B) s.trace := by
  obtain ⟨new, hn, hcalls⟩ := (Resolve_owners E s).2
  have hnot : Event.OnCollisionExit A B ∉ new := by
    intro hmem
    exact ResolveCalls.forall_mem (fun e => e ≠ Event.OnCollisionExit A B)
      (fun _ _ h => by cases h) (fun _ _ _ h => by cases h)
      (by
        intro c n m isNew _ e he h
        subst h
        cases isNew <;> simp [contactCalls] at he)
      hcalls _ hmem rfl
  rw [hn, List.count_append, List.count_eq_zero.mpr hnot, Nat.add_zero]

theorem demoEnv_flagsStable (statics : List Nat) (apart : List (Nat × Nat)) :
    FlagsStable (demoEnv statics apart) :=
  ⟨fun _ _ _ => rfl, fun _ _ _ => rfl, fun _ _ _ => rfl, fun _ _ _ => rfl⟩

theorem demoEnv_stayExitInert (statics : List Nat) (apart : List (Nat × Nat)) :
    StayExitInert (demoEnv statics apart) :=
  ⟨fun _ _ _ => rfl, fun _ _ _ => rfl, fun _ _ _ => rfl, fun _ _ _ => rfl⟩

theorem demoEnv_searchSound (statics : List Nat) (apart : List (Nat × Nat)) :
    SearchSound (demoEnv statics apart) :=
  fun _ _ _ _ h => h

/-! ### `Add` bucket by bucket -/

theorem LayerMap.find_pushBack (m : LayerMap (List C_BoxCollider)) (k k' : CollisionLayer)
    (c : C_BoxCollider) :
    LayerMap.find (LayerMap.pushBack m k c) k'
      = if k' = k then (LayerMap.find m k).map (fun b => b ++ [c]) else LayerMap.find m k' := by
  induction m with
  | nil => simp [LayerMap.pushBack, LayerMap.find]
  | cons e rest ih =>
    obtain ⟨k0, b0⟩ := e
    by_cases h0 : k0 = k
    · subst h0
      by_cases h1 : k' = k0
      · subst h1; simp [LayerMap.pushBack, LayerMap.find]
      · have h1' : ¬ k0 = k' := fun h => h1 h.symm
        simp [LayerMap.pushBack, LayerMap.find, h1, h1']
    · by_cases h1 : k' = k
      · subst h1
        simp [LayerMap.pushBack, LayerMap.find, h0, ih]
      · simp only [LayerMap.pushBack, LayerMap.find, h0, if_false, ih, h1]

theorem addObject_find {W : Type} (s : S_Collidable W) (o : Object) (c : C_BoxCollider)
    (hc : o.collider = some c) (layer : CollisionLayer) :
    LayerMap.find (S_Collidable.addObject s o).collidables layer
      = if layer = c.layer then some (bucketOf s.collidables c.layer ++ [c])
        else LayerMap.find s.collidables layer := by
  unfold S_Collidable.addObject
  rw [hc]
  simp only
  cases hf : LayerMap.find s.collidables c.layer with
  | some b =>
    simp only [LayerMap.find_pushBack, hf, bucketOf, Option.map_some', Option.getD_some]
  | none =>
    simp only [LayerMap.find_insert _ _ layer _ hf, bucketOf, hf, Option.getD_none,
      List.nil_append]
    by_cases h : layer = c.layer
    · simp [h]
    · have h' : ¬ c.layer = layer := fun h2 => h h2.symm
      simp [h, h']

theorem Add_find {W : Type} (objects : List Object) (layer : CollisionLayer) :
    ∀ s : S_Collidable W,
      LayerMap.find (s.Add objects).collidables layer
        = if collidersFor objects layer = [] then LayerMap.find s.collidables layer
          else some (bucketOf s.collidables layer ++ collidersFor objects layer) := by
  induction objects with
  | nil => intro s; simp [S_Collidable.Add, collidersFor]
  | cons o rest ih =>
    intro s
    have hstep : (s.Add (o :: rest)) = (S_Collidable.addObject s o).Add rest := rfl
    rw [hstep, ih]
    cases hc : o.collider with
    | none =>
      have h1 : S_Collidable.addObject s o = s := by simp [S_Collidable.addObject, hc]
      have h2 : collidersFor (o :: rest) layer = collidersFor rest layer := by
        simp [collidersFor, hc]
      rw [h1, h2]
    | some c =>
      by_cases hl : c.layer = layer
      · have h2 : collidersFor (o :: rest) layer = c :: collidersFor rest layer := by
          simp [collidersFor, hc, hl]
        have h3 := addObject_find s o c hc layer
        rw [if_pos hl.symm, hl] at h3
        simp only [h2, bucketOf, h3, Option.getD_some]
        by_cases hr : collidersFor rest layer = []
        · simp [hr]
        · simp [hr]
      · have h2 : collidersFor (o :: rest) layer = collidersFor rest layer := by
          simp [collidersFor, hc, hl]
        have h3 := addObject_find s o c hc layer
        rw [if_neg (fun h => hl h.symm)] at h3
        simp only [h2, bucketOf, h3]

/-! ### The calls of one tick -/

theorem processPairs_calls {W : Type} (E : Env W) :
    ∀ (l : List ColliderPair) (s : S_Collidable W),
      ∃ new, (S_Collidable.processPairs E l s).2.trace = s.trace ++ new
        ∧ ∀ e ∈ new, e.isReevaluation = true := by
  intro l
  induction l with
  | nil => intro s; exact ⟨[], by simp [S_Collidable.processPairs], by simp⟩
  | cons p rest ih =>
    intro s
    obtain ⟨a, b⟩ := p
    rcases processPairs_cons_cases E a b rest s with ⟨_, h⟩ | ⟨_, _, h⟩ | ⟨_, _, h⟩
    · obtain ⟨new, hn, hall⟩ :=
        ih (S_Collidable.fireExit E (S_Collidable.fireExit E s a b) b a)
      refine ⟨[Event.OnCollisionExit a b, Event.OnCollisionExit b a] ++ new, ?_, ?_⟩
      · rw [h, hn]; simp [S_Collidable.fireExit]
      · intro e he
        rcases List.mem_append.mp he with h' | h'
        · simp at h'; rcases h' with rfl | rfl <;> rfl
        · exact hall e h'
    · obtain ⟨new, hn, hall⟩ :=
        ih (S_Collidable.fireExit E (S_Collidable.fireExit E
          (s.emit (Event.Intersects a b)) a b) b a)
      refine ⟨[Event.Intersects a b, Event.OnCollisionExit a b, Event.OnCollisionExit b a]
        ++ new, ?_, ?_⟩
      · rw [h, hn]; simp [S_Collidable.fireExit, S_Collidable.emit]
      · intro e he
        rcases List.mem_append.mp he with h' | h'
        · simp at h'; rcases h' with rfl | rfl | rfl <;> rfl
        · exact hall e h'
    · obtain ⟨new, hn, hall⟩ :=
        ih (S_Collidable.fireStay E (S_Collidable.fireStay E
          (s.emit (Event.Intersects a b)) a b) b a)
      refine ⟨[Event.Intersects a b, Event.OnCollisionStay a b, Event.OnCollisionStay b a]
        ++ new, ?_, ?_⟩
      · rw [h]; simp only []; rw [hn]; simp [S_Collidable.fireStay, S_Collidable.emit]
      · intro e he
        rcases List.mem_append.mp he with h' | h'
        · simp at h'; rcases h' with rfl | rfl | rfl <;> rfl
        · exact hall e h'

theorem Resolve_calls {W : Type} (E : Env W) (s : S_Collidable W) :
    ∃ new, (s.Resolve E).trace = s.trace ++ new ∧ ∀ e ∈ new, e.isResolveCall = true := by
  obtain ⟨new, hn, hcalls⟩ := (Resolve_owners E s).2
  refine ⟨new, hn, ?_⟩
  exact ResolveCalls.forall_mem (fun e => e.isResolveCall = true)
    (fun _ _ => rfl) (fun _ _ _ => rfl)
    (by
      intro c n m isNew _ e he
      cases isNew <;> simp [contactCalls] at he
      · rcases he with rfl | rfl | rfl | rfl <;> rfl
      · rcases he with rfl | rfl | rfl | rfl | rfl | rfl <;> rfl)
    hcalls

/-! ### `Resolve` with the guards of its steps -/

/-- The rule for `Resolve` once more, with more to go on where a pair is inserted and
where `ResolveOverlap` is applied: there the scanning collider satisfies `okScan`, the
candidate `ok`, and at an insertion `Intersects` has just reported colliding. -/
theorem Resolve_rule_guarded {W : Type} (E : Env W) (s0 : S_Collidable W)
    (Inv : S_Collidable W → Prop) (okScan : C_BoxCollider → Prop)
    (ok : C_BoxCollider → C_BoxCollider → Prop)
    (hTrace : ∀ s t, Inv s → Inv { s with trace := t })
    (hLayers : ∀ s k, Inv s → Inv (s.layerMask k).2)
    (hEnter : ∀ s o c, Inv s → Inv { s with world := E.OnCollisionEnter s.world o c })
    (hOverlap : ∀ s c n m, Inv s → okScan c → ok c n →
      Inv { s with world := E.ResolveOverlap s.world c m })
    (hInsert : ∀ s c n, Inv s → okScan c → ok c n →
      (E.Intersects s.world c n).colliding = true → Inv (insertPair s (c, n)))
    (hScan : ∀ s k b c, Inv s → (k, b) ∈ s0.collidables → c ∈ b →
      (maskOf s0.collisionLayers k).GetMask ≠ 0 → E.isStatic s.world c.owner = false →
      okScan c)
    (hCand : ∀ s w c n, Inv s → okScan c → n ∈ E.Search w s0.collisionTree c →
      c.owner ≠ n.owner → (maskOf s0.collisionLayers c.layer).GetBit n.layer.toInt = true →
      ok c n)
    (h0 : Inv s0) :
    Inv (S_Collidable.Resolve E s0)
    ∧ (S_Collidable.Resolve E s0).collisionTree = s0.collisionTree
    ∧ (∀ k, maskOf (S_Collidable.Resolve E s0).collisionLayers k = maskOf s0.collisionLayers k)
    ∧ ∃ new, (S_Collidable.Resolve E s0).trace = s0.trace ++ new
        ∧ ResolveCalls okScan ok new := by
  -- the invariant carried through the three loops
  let K : S_Collidable W → Prop := fun s =>
    Inv s ∧ s.collisionTree = s0.collisionTree
      ∧ (∀ k, maskOf s.collisionLayers k = maskOf s0.collisionLayers k)
      ∧ ∃ new, s.trace = s0.trace ++ new ∧ ResolveCalls okScan ok new
  have kLayers : ∀ s k, K s → K (s.layerMask k).2 := by
    rintro s k ⟨hI, hT, hM, new, hN, hC⟩
    exact ⟨hLayers s k hI, hT, fun k' => (maskOf_index _ k k').trans (hM k'), new, hN, hC⟩
  have kCand : ∀ c, okScan c → ∀ s n, (∃ w, n ∈ E.Search w s0.collisionTree c) →
      K s → K (S_Collidable.resolveCandidate E c s n) := by
    intro c hc s n ⟨w, hn⟩ hK
    have hK1 := kLayers s c.layer hK
    obtain ⟨hI, hT, hM, new, hN, hC⟩ := hK1
    rcases resolveCandidate_cases E c n s with
      ⟨_, h⟩ | ⟨_, _, h⟩ | ⟨h1, h2, _, h⟩ | ⟨h1, h2, _, _, h⟩ | ⟨h1, h2, h3, _, h⟩
    · rw [h]; exact hK
    · rw [h]; exact ⟨hI, hT, hM, new, hN, hC⟩
    · rw [h]
      have hok : ok c n := hCand s w c n hK.1 hc hn h1 (by rw [← hK.2.2.1]; exact h2)
      refine ⟨hTrace _ _ hI, hT, hM, new ++ [Event.Intersects c n], ?_, ?_⟩
      · simp [S_Collidable.emit, hN]
      · exact ResolveCalls.miss c n hC hok
    · rw [h]
      have hok : ok c n := hCand s w c n hK.1 hc hn h1 (by rw [← hK.2.2.1]; exact h2)
      refine ⟨?_, hT, hM, new ++ contactCalls c n (E.Intersects s.world c n) false, ?_, ?_⟩
      · exact hTrace _ _ (hOverlap _ c n _ (hTrace _ _ (hTrace _ _ (hTrace _ _ hI))) hc hok)
      · simp [S_Collidable.applyResolveOverlap, S_Collidable.emit, hN, contactCalls]
      · exact ResolveCalls.hit c n _ false hC hok
    · rw [h]
      have hok : ok c n := hCand s w c n hK.1 hc hn h1 (by rw [← hK.2.2.1]; exact h2)
      refine ⟨?_, hT, hM, new ++ contactCalls c n (E.Intersects s.world c n) true, ?_, ?_⟩
      · exact hTrace _ _ (hOverlap _ c n _ (hTrace _ _ (hTrace _ _
          (hTrace _ _ (hEnter _ n.owner c (hTrace _ _ (hEnter _ c.owner n
            (hInsert _ c n (hTrace _ _ hI) hc hok h3))))))) hc hok)
      · simp [S_Collidable.applyResolveOverlap, S_Collidable.emit, S_Collidable.fireEnter,
          insertPair, hN, contactCalls]
      · exact ResolveCalls.hit c n _ true hC hok
  have kCollidable : ∀ k b, (k, b) ∈ s0.collidables →
      (maskOf s0.collisionLayers k).GetMask ≠ 0 → ∀ s c, c ∈ b →
      K s → K (S_Collidable.resolveCollidable E s c) := by
    intro k b hkb hmask s c hcb hK
    unfold S_Collidable.resolveCollidable
    cases hst : E.isStatic s.world c.owner
    · have hc : okScan c := hScan s k b c hK.1 hkb hcb hmask hst
      simp only [Bool.false_eq_true, if_false]
      refine foldl_preserves K _ _ (fun s' n hn hK' => kCand c hc s' n ⟨s.world, ?_⟩ hK') _ ?_
      · rw [← hK.2.1]; exact hn
      · obtain ⟨hI, hT, hM, new, hN, hC⟩ := hK
        refine ⟨hTrace _ _ hI, hT, hM, new ++ [Event.Search c], ?_, ResolveCalls.search c hC hc⟩
        simp [S_Collidable.emit, hN]
    · simpa using hK
  have kLayer : ∀ s maps, maps ∈ s0.collidables → K s → K (S_Collidable.resolveLayer E s maps) := by
    intro s maps hmaps hK
    obtain ⟨k, b⟩ := maps
    have hK1 := kLayers s k hK
    unfold S_Collidable.resolveLayer
    by_cases hz : (s.layerMask k).1.GetMask = 0
    · simpa [hz] using hK1
    · simp only [hz, if_false]
      have hmask : (maskOf s0.collisionLayers k).GetMask ≠ 0 := by
        rw [← hK.2.2.1 k]; exact hz
      exact foldl_preserves K _ _ (fun s' c hc hK' => kCollidable k b hmaps hmask s' c hc hK') _ hK1
  exact foldl_preserves K _ _ (fun s maps hm hK' => kLayer s maps hm hK') s0
    ⟨h0, rfl, fun _ => rfl, [], by simp, ResolveCalls.nil⟩

theorem ResolveWorld.isStatic_eq {W : Type} {E : Env W} (hS : StaticStable E) {w0 w : W}
    (h : ResolveWorld E w0 w) : E.isStatic w = E.isStatic w0 := by
  induction h with
  | start => rfl
  | enter o c _ ih => exact (hS.enter _ o c).trans ih
  | overlap c m _ ih => exact (hS.overlap _ c m).trans ih

/-- What `Resolve` does to positions when static flags are stable and `ResolveOverlap` moves
the owner of its collider only: the static flags are as before, an object that owns no
collider that may scan keeps its position, and `ResolveOverlap` is called on colliders that
may scan only. -/
theorem Resolve_moves {W P : Type} (E : Env W) (position : W → Nat → P)
    (hS : StaticStable E) (hP : MovesOnlyOwner E position) (s : S_Collidable W) :
    (E.isStatic (s.Resolve E).world = E.isStatic s.world
      ∧ ∀ o, (∀ c : C_BoxCollider, c.owner = o → ¬ MayScan E s c) →
          position (s.Resolve E).world o = position s.world o)
    ∧ ∃ new, (s.Resolve E).trace = s.trace ++ new
        ∧ ResolveCalls (MayScan E s) (fun c _ => MayScan E s c) new := by
  have h := Resolve_rule_guarded E s
    (fun s' => E.isStatic s'.world = E.isStatic s.world
      ∧ ∀ o, (∀ c : C_BoxCollider, c.owner = o → ¬ MayScan E s c) →
          position s'.world o = position s.world o)
    (MayScan E s) (fun c _ => MayScan E s c)
    (fun _ _ h => h) (fun _ _ h => h)
    (fun s' o c h => ⟨(hS.enter s'.world o c).trans h.1,
      fun o' ho' => (hP.enter s'.world o c o').trans (h.2 o' ho')⟩)
    (fun s' c _ m h hc _ => ⟨(hS.overlap s'.world c m).trans h.1,
      fun o ho => (hP.overlap s'.world c m o (fun e => ho c e.symm hc)).trans (h.2 o ho)⟩)
    (fun _ _ _ h _ _ _ => h)
    (fun s' k b c h hkb hcb hmask hst => ⟨k, b, hkb, hcb, hmask, by rw [← h.1]; exact hst⟩)
    (fun _ _ _ _ _ hc _ _ _ => hc)
    ⟨rfl, fun _ _ => rfl⟩
  exact ⟨h.1, h.2.2.2⟩

/-- What `Resolve` does to the contact set: it appends pairs, each with the reasons of
`AddedByResolve`. -/
theorem Resolve_adds {W : Type} (E : Env W) (s : S_Collidable W) :
    ∃ added, (s.Resolve E).objectsColliding = s.objectsColliding ++ added
      ∧ ∀ p ∈ added, AddedByResolve E s p := by
  have h := Resolve_rule_guarded E s
    (fun s' => ResolveWorld E s.world s'.world
      ∧ ∃ added, s'.objectsColliding = s.objectsColliding ++ added
          ∧ ∀ p ∈ added, AddedByResolve E s p)
    (fun c => (∃ k b, (k, b) ∈ s.collidables ∧ c ∈ b
        ∧ (maskOf s.collisionLayers k).GetMask ≠ 0)
      ∧ ∃ w, ResolveWorld E s.world w ∧ E.isStatic w c.owner = false)
    (fun c n => (maskOf s.collisionLayers c.layer).GetBit n.layer.toInt = true)
    (fun _ _ h => h) (fun _ _ h => h)
    (fun s' o c h => ⟨ResolveWorld.enter o c h.1, h.2⟩)
    (fun s' c _ m h _ _ => ⟨ResolveWorld.overlap c m h.1, h.2⟩)
    (by
      intro s' c n h hc hok hcol
      obtain ⟨hw, added, hadd, hall⟩ := h
      refine ⟨hw, added ++ [(c, n)], ?_, ?_⟩
      · simp [insertPair, hadd]
      · intro p hp
        rcases List.mem_append.mp hp with hp | hp
        · exact hall p hp
        · rw [List.mem_singleton.mp hp]
          exact ⟨hc.1, hc.2, hok, s'.world, hw, hcol⟩)
    (fun s' k b c h hkb hcb hmask hst => ⟨⟨k, b, hkb, hcb, hmask⟩, s'.world, h.1, hst⟩)
    (fun _ _ _ _ _ _ _ _ hbit => hbit)
    ⟨ResolveWorld.start, [], by simp, by simp⟩
  exact h.1.2

theorem lineEnv_staticStable (statics : List Nat) : StaticStable (lineEnv statics) :=
  ⟨fun _ _ _ => rfl, fun _ _ _ => rfl⟩

theorem lineEnv_movesOnlyOwner (statics : List Nat) :
    MovesOnlyOwner (lineEnv statics) (fun w o => w o) :=
  ⟨fun w _ _ _ h => Function.update_noteq h _ w, fun _ _ _ _ => rfl⟩

/-! ### One candidate -/

open S_Collidable in
theorem resolveCandidate_effect {W : Type} (E : Env W) (c n : C_BoxCollider)
    (s : S_Collidable W) :
    (resolveCandidate E c s n).trace = s.trace ++ candidateCalls E s c n
    ∧ (resolveCandidate E c s n).objectsColliding
        = (if candidateHit E s c n then (emplace E s.objectsColliding (c, n)).1
          else s.objectsColliding)
    ∧ (resolveCandidate E c s n).world
        = (if candidateHit E s c n then worldAfterContact E s c n else s.world)
    ∧ (resolveCandidate E c s n).collisionTree = s.collisionTree
    ∧ (resolveCandidate E c s n).collidables = s.collidables := by
  rcases resolveCandidate_cases E c n s with
    ⟨h1, h⟩ | ⟨h1, h2, h⟩ | ⟨h1, h2, h3, h⟩ | ⟨h1, h2, h3, h4, h⟩ | ⟨h1, h2, h3, h4, h⟩
  · rw [h]; simp [candidateCalls, candidateHit, h1]
  · rw [h]; simp [candidateCalls, candidateHit, h1, h2, layerMask]
  · rw [h]; simp [candidateCalls, candidateHit, h1, h2, h3, layerMask, emit]
  · rw [h]
    simp [candidateCalls, candidateHit, worldAfterContact, h1, h2, h3, h4, layerMask, emit,
      emplace, applyResolveOverlap, contactCalls]
  · rw [h]
    simp [candidateCalls, candidateHit, worldAfterContact, h1, h2, h3, h4, layerMask, emit,
      emplace, applyResolveOverlap, fireEnter, insertPair, contactCalls]

/-- On buckets that hold colliders of their own layer, a collider whose layer reads the
mask `0` is not scanned: no `Search` and no `ResolveOverlap` call is made for it and no
pair with it as first member is added. -/
theorem Resolve_skips_zero_mask {W : Type} (E : Env W) (s : S_Collidable W)
    (hs : BucketsByLayer s) (c : C_BoxCollider)
    (hz : (maskOf s.collisionLayers c.layer).GetMask = 0) :
    Event.Search c ∉ S_Collidable.fired s (s.Resolve E)
    ∧ (∀ m, Event.ResolveOverlap c m ∉ S_Collidable.fired s (s.Resolve E))
    ∧ ∀ n, (c, n) ∈ (s.Resolve E).objectsColliding → (c, n) ∈ s.objectsColliding := by
  obtain ⟨hset, new, hn, hcalls⟩ := Resolve_scanners E s hs
  rw [fired_of_trace_eq _ _ new hn]
  have hall := ResolveCalls.forall_mem
    (fun e => ∀ x, (e = Event.Search x ∨ ∃ m, e = Event.ResolveOverlap x m) →
      (maskOf s.collisionLayers x.layer).GetMask ≠ 0)
    (by
      intro x hx y h
      rcases h with h | ⟨m, h⟩
      · cases h; exact hx
      · cases h)
    (by
      intro x n _ y h
      rcases h with h | ⟨m, h⟩ <;> cases h)
    (by
      intro x n m isNew hx e he y h
      cases isNew <;> simp [contactCalls] at he <;> rcases h with h | ⟨m', h⟩ <;> subst h <;>
        simp at he
      · rw [he.1]; exact hx
      · rw [he.1]; exact hx)
    hcalls
  refine ⟨fun h => hall _ h c (Or.inl rfl) hz, fun m h => hall _ h c (Or.inr ⟨m, rfl⟩) hz, ?_⟩
  intro n hn'
  rcases hset _ hn' with h | h
  · exact h
  · exact absurd hz h

theorem Resolve_maskOf {W : Type} (E : Env W) (s : S_Collidable W) (k : CollisionLayer) :
    maskOf (s.Resolve E).collisionLayers k = maskOf s.collisionLayers k :=
  (Resolve_rule E s (fun _ => True) (fun _ => True) (fun _ _ => True)
    (fun _ _ h => h) (fun _ _ h => h) (fun _ _ _ h => h) (fun _ _ _ h => h)
    (fun _ _ _ h _ => h) (fun _ _ _ _ _ _ _ _ _ => trivial)
    (fun _ _ _ _ _ _ _ _ _ => trivial) trivial).2.2.1 k

/-! ### A pair with a queued member, whatever the hooks do to other flags -/

theorem pairQueued_exit {W : Type} (E : Env W) (hK : QueuedStays E) (w : W) (o : Nat)
    (c : C_BoxCollider) (p : ColliderPair) (h : pairQueued E w p = true) :
    pairQueued E (E.OnCollisionExit w o c) p = true := by
  simp only [pairQueued, Bool.or_eq_true] at h ⊢
  rcases h with h | h
  · exact Or.inl (hK.exit w o c _ h)
  · exact Or.inr (hK.exit w o c _ h)

theorem pairQueued_stay {W : Type} (E : Env W) (hK : QueuedStays E) (w : W) (o : Nat)
    (c : C_BoxCollider) (p : ColliderPair) (h : pairQueued E w p = true) :
    pairQueued E (E.OnCollisionStay w o c) p = true := by
  simp only [pairQueued, Bool.or_eq_true] at h ⊢
  rcases h with h | h
  · exact Or.inl (hK.stay w o c _ h)
  · exact Or.inr (hK.stay w o c _ h)

theorem processPairs_queued_pair {W : Type} (E : Env W) (hK : QueuedStays E)
    (A B : C_BoxCollider) :
    ∀ (l : List ColliderPair) (s : S_Collidable W), pairQueued E s.world (A, B) = true →
      List.count (Event.OnCollisionExit A B) (S_Collidable.processPairs E l s).2.trace
          = List.count (Event.OnCollisionExit A B) s.trace
            + List.count (A, B) l + List.count (B, A) l
      ∧ (A, B) ∉ (S_Collidable.processPairs E l s).1 := by
  intro l
  induction l with
  | nil => intro s _; simp [S_Collidable.processPairs]
  | cons p rest ih =>
    intro s hq
    obtain ⟨a, b⟩ := p
    have hqA : E.IsQueuedForRemoval s.world A.owner = true
        ∨ E.IsQueuedForRemoval s.world B.owner = true := by
      simpa [pairQueued] using hq
    rcases processPairs_cons_cases E a b rest s with ⟨_, h⟩ | ⟨h1, _, h⟩ | ⟨h1, _, h⟩
    · obtain ⟨ihc, ihm⟩ := ih (S_Collidable.fireExit E (S_Collidable.fireExit E s a b) b a)
        (pairQueued_exit E hK _ _ _ _ (pairQueued_exit E hK _ _ _ _ hq))
      rw [h]
      refine ⟨?_, ihm⟩
      rw [ihc]
      simp only [S_Collidable.fireExit, List.append_assoc, List.singleton_append,
        List.count_append, List.count_cons, List.count_nil, beq_iff_eq,
        Event.OnCollisionExit.injEq, Prod.mk.injEq]
      have hsymm : (B = A) = (A = B) := propext ⟨Eq.symm, Eq.symm⟩
      by_cases h1 : a = A <;> by_cases h2 : b = B <;> by_cases h3 : a = B <;>
        by_cases h4 : b = A <;> by_cases h5 : A = B <;>
        simp [h1, h2, h3, h4, h5, hsymm] <;> omega
    · have hab : E.IsQueuedForRemoval s.world a.owner = false
          ∧ E.IsQueuedForRemoval s.world b.owner = false := by
        simpa [pairQueued] using h1
      have n1 : ¬ (a = A ∧ b = B) := by
        rintro ⟨rfl, rfl⟩; rcases hqA with h' | h' <;> simp [hab] at h'
      have n2 : ¬ (b = A ∧ a = B) := by
        rintro ⟨rfl, rfl⟩; rcases hqA with h' | h' <;> simp [hab] at h'
      have n3 : ¬ (a = B ∧ b = A) := fun h' => n2 ⟨h'.2, h'.1⟩
      obtain ⟨ihc, ihm⟩ := ih (S_Collidable.fireExit E (S_Collidable.fireExit E
          (s.emit (Event.Intersects a b)) a b) b a)
        (pairQueued_exit E hK _ _ _ _ (pairQueued_exit E hK _ _ _ _ hq))
      rw [h]
      refine ⟨?_, ihm⟩
      rw [ihc]
      simp [S_Collidable.fireExit, S_Collidable.emit, List.count_append, List.count_cons, n1,
        n2, n3]
    · have hab : E.IsQueuedForRemoval s.world a.owner = false
          ∧ E.IsQueuedForRemoval s.world b.owner = false := by
        simpa [pairQueued] using h1
      have n1 : ¬ (a = A ∧ b = B) := by
        rintro ⟨rfl, rfl⟩; rcases hqA with h' | h' <;> simp [hab] at h'
      have n3 : ¬ (a = B ∧ b = A) := by
        rintro ⟨rfl, rfl⟩; rcases hqA with h' | h' <;> simp [hab] at h'
      obtain ⟨ihc, ihm⟩ := ih (S_Collidable.fireStay E (S_Collidable.fireStay E
          (s.emit (Event.Intersects a b)) a b) b a)
        (pairQueued_stay E hK _ _ _ _ (pairQueued_stay E hK _ _ _ _ hq))
      rw [h]
      simp only []
      refine ⟨?_, ?_⟩
      · rw [ihc]
        simp [S_Collidable.fireStay, S_Collidable.emit, List.count_append, List.count_cons,
          n1, n3]
      · intro hmem
        rcases List.mem_cons.mp hmem with h' | h'
        · exact n1 ⟨(Prod.mk.inj h').1.symm, (Prod.mk.inj h').2.symm⟩
        · exact ihm h'

theorem Update_trace_extends {W : Type} (E : Env W) (s : S_Collidable W) :
    ∃ new, (s.Update E).trace = s.trace ++ new := by
  obtain ⟨new1, hn1, _⟩ := processPairs_calls E s.objectsColliding (s.emit Event.DrawDebug)
  obtain ⟨new2, hn2, _⟩ := Resolve_calls E (beforeResolve E s)
  obtain ⟨_, _, _, _, _, fTr⟩ := beforeResolve_fields E s
  refine ⟨[Event.DrawDebug] ++ new1
    ++ Event.Clear :: (allColliders s.collidables).map Event.Insert ++ new2, ?_⟩
  rw [Update_eq, hn2, fTr, hn1]
  simp [S_Collidable.emit]

/-- When `Search` returns only inserted colliders, a pair that `Resolve` adds has its
first member in a bucket and its second member in the index. -/
theorem Resolve_adds_members {W : Type} (E : Env W) (hS : SearchSound E)
    (s : S_Collidable W) :
    ∀ p ∈ (s.Resolve E).objectsColliding,
      p ∈ s.objectsColliding
      ∨ (p.1 ∈ allColliders s.collidables ∧ p.2 ∈ s.collisionTree) := by
  exact (Resolve_rule E s
    (fun s' => ∀ p ∈ s'.objectsColliding,
      p ∈ s.objectsColliding ∨ (p.1 ∈ allColliders s.collidables ∧ p.2 ∈ s.collisionTree))
    (fun c => c ∈ allColliders s.collidables)
    (fun c n => c ∈ allColliders s.collidables ∧ n ∈ s.collisionTree)
    (fun _ _ h => h) (fun _ _ h => h) (fun _ _ _ h => h) (fun _ _ _ h => h)
    (by
      intro s' c n h hcn p hp
      simp only [insertPair, List.mem_append, List.mem_singleton] at hp
      rcases hp with hp | hp
      · exact h p hp
      · subst hp; exact Or.inr hcn)
    (fun _ k b c _ hkb hcb _ _ => List.mem_flatMap.mpr ⟨(k, b), hkb, hcb⟩)
    (fun _ w c n _ hc hn _ _ => ⟨hc, hS w _ c n hn⟩)
    (fun p hp => Or.inl hp)).1

theorem demoEnv_queuedStays (statics : List Nat) (apart : List (Nat × Nat)) :
    QueuedStays (demoEnv statics apart) :=
  ⟨fun _ _ _ _ h => h, fun _ _ _ _ h => h⟩

/-! ### The contact re-evaluation, pair by pair, in the world each pair meets -/

theorem worldAfter_append {W : Type} (E : Env W) (w : W) (l1 l2 : List Event) :
    worldAfter E w (l1 ++ l2) = worldAfter E (worldAfter E w l1) l2 := by
  simp [worldAfter, List.foldl_append]

theorem visits_fst {W : Type} (E : Env W) :
    ∀ (l : List ColliderPair) (w : W), (visits E w l).map Prod.fst = l := by
  intro l
  induction l with
  | nil => intro w; rfl
  | cons p rest ih => intro w; simp [visits, ih]

theorem processPairs_visits {W : Type} (E : Env W) :
    ∀ (l : List ColliderPair) (s : S_Collidable W),
      (S_Collidable.processPairs E l s).1
        = ((visits E s.world l).filter (fun v => pairSurvives E v.2 v.1)).map Prod.fst
      ∧ (S_Collidable.processPairs E l s).2.trace
        = s.trace ++ (visits E s.world l).flatMap (fun v => pairCalls E v.2 v.1)
      ∧ (S_Collidable.processPairs E l s).2.world
        = worldAfter E s.world ((visits E s.world l).flatMap (fun v => pairCalls E v.2 v.1)) := by
  intro l
  induction l with
  | nil => intro s; simp [S_Collidable.processPairs, visits, worldAfter]
  | cons p rest ih =>
    intro s
    obtain ⟨a, b⟩ := p
    rcases processPairs_cons_cases E a b rest s with ⟨h1, h⟩ | ⟨h1, h2, h⟩ | ⟨h1, h2, h⟩
    · have hc : pairCalls E s.world (a, b)
          = [Event.OnCollisionExit a b, Event.OnCollisionExit b a] := by
        simp [pairCalls, h1]
      have hw : (S_Collidable.fireExit E (S_Collidable.fireExit E s a b) b a).world
          = worldAfter E s.world (pairCalls E s.world (a, b)) := by
        rw [hc]; rfl
      obtain ⟨i1, i2, i3⟩ := ih (S_Collidable.fireExit E (S_Collidable.fireExit E s a b) b a)
      rw [hw] at i1 i2 i3
      rw [h]
      refine ⟨?_, ?_, ?_⟩
      · rw [i1]; simp [visits, pairSurvives, h1]
      · rw [i2]; simp [visits, hc, S_Collidable.fireExit]
      · rw [i3]; simp [visits, worldAfter_append]
    · have hc : pairCalls E s.world (a, b)
          = [Event.Intersects a b, Event.OnCollisionExit a b, Event.OnCollisionExit b a] := by
        simp [pairCalls, h1, h2]
      have hw : (S_Collidable.fireExit E (S_Collidable.fireExit E
            (s.emit (Event.Intersects a b)) a b) b a).world
          = worldAfter E s.world (pairCalls E s.world (a, b)) := by
        rw [hc]; rfl
      obtain ⟨i1, i2, i3⟩ := ih (S_Collidable.fireExit E (S_Collidable.fireExit E
        (s.emit (Event.Intersects a b)) a b) b a)
      rw [hw] at i1 i2 i3
      rw [h]
      refine ⟨?_, ?_, ?_⟩
      · rw [i1]; simp [visits, pairSurvives, h1, h2]
      · rw [i2]; simp [visits, hc, S_Collidable.fireExit, S_Collidable.emit]
      · rw [i3]; simp [visits, worldAfter_append]
    · have hc : pairCalls E s.world (a, b)
          = [Event.Intersects a b, Event.OnCollisionStay a b, Event.OnCollisionStay b a] := by
        simp [pairCalls, h1, h2]
      have hw : (S_Collidable.fireStay E (S_Collidable.fireStay E
            (s.emit (Event.Intersects a b)) a b) b a).world
          = worldAfter E s.world (pairCalls E s.world (a, b)) := by
        rw [hc]; rfl
      obtain ⟨i1, i2, i3⟩ := ih (S_Collidable.fireStay E (S_Collidable.fireStay E
        (s.emit (Event.Intersects a b)) a b) b a)
      rw [hw] at i1 i2 i3
      rw [h]
      refine ⟨?_, ?_, ?_⟩
      · simp only []; rw [i1]; simp [visits, pairSurvives, h1, h2]
      · simp only []; rw [i2]; simp [visits, hc, S_Collidable.fireStay, S_Collidable.emit]
      · simp only []; rw [i3]; simp [visits, worldAfter_append]

/-! ### The calls of `Resolve` and the world each test is made in -/

theorem AddedAt.append {W : Type} {E : Env W} {w0 : W} {calls : List Event}
    {p : ColliderPair} (h : AddedAt E w0 calls p) (more : List Event) :
    AddedAt E w0 (calls ++ more) p := by
  obtain ⟨pre, mid, post, hc, hs, hi⟩ := h
  exact ⟨pre, mid, post ++ more, by rw [hc]; simp [List.append_assoc], hs, hi⟩

theorem worldAfter_candidateCalls {W : Type} (E : Env W) (s : S_Collidable W)
    (c n : C_BoxCollider) :
    worldAfter E s.world (candidateCalls E s c n)
      = (if candidateHit E s c n then worldAfterContact E s c n else s.world) := by
  by_cases h1 : c.owner = n.owner
  · simp [candidateCalls, candidateHit, h1, worldAfter]
  · cases h2 : (maskOf s.collisionLayers c.layer).GetBit n.layer.toInt
    · simp [candidateCalls, candidateHit, h1, h2, worldAfter]
    · cases h3 : (E.Intersects s.world c n).colliding
      · simp [candidateCalls, candidateHit, h1, h2, h3, worldAfter, Event.effect]
      · cases h4 : (S_Collidable.emplace E s.objectsColliding (c, n)).2 <;>
          simp [candidateCalls, candidateHit, worldAfterContact, contactCalls, h1, h2, h3, h4,
            worldAfter, Event.effect]

theorem resolveCandidate_progress {W : Type} (E : Env W) (s0 : S_Collidable W)
    (c n : C_BoxCollider) (pre mid : List Event) (s : S_Collidable W)
    (h : ResolveProgress E s0 s (pre ++ Event.Search c :: mid))
    (hst : E.isStatic (worldAfter E s0.world pre) c.owner = false) :
    ResolveProgress E s0 (S_Collidable.resolveCandidate E c s n)
      (pre ++ Event.Search c :: (mid ++ candidateCalls E s c n)) := by
  obtain ⟨hT, hW, added, hA, hall⟩ := h
  obtain ⟨eT, eC, eW, _, _⟩ := resolveCandidate_effect E c n s
  have hsplit : pre ++ Event.Search c :: (mid ++ candidateCalls E s c n)
      = (pre ++ Event.Search c :: mid) ++ candidateCalls E s c n := by simp
  rw [hsplit]
  refine ⟨by rw [eT, hT, List.append_assoc], ?_, ?_⟩
  · rw [eW, worldAfter_append, ← hW, worldAfter_candidateCalls]
  · rw [eC]
    by_cases hh : candidateHit E s c n = true
    · by_cases hany : s.objectsColliding.any (E.sameKey (c, n)) = true
      · have hfst : (S_Collidable.emplace E s.objectsColliding (c, n)).1
            = s.objectsColliding := by
          simp [S_Collidable.emplace, hany]
        refine ⟨added, ?_, fun p hp => (hall p hp).append _⟩
        rw [if_pos hh, hfst, hA]
      · have hnew : (S_Collidable.emplace E s.objectsColliding (c, n)).2 = true := by
          simp [S_Collidable.emplace, hany]
        have hh' : c.owner ≠ n.owner
            ∧ (maskOf s.collisionLayers c.layer).GetBit n.layer.toInt = true
            ∧ (E.Intersects s.world c n).colliding = true := by
          simpa [candidateHit, and_assoc] using hh
        have hcalls : candidateCalls E s c n
            = contactCalls c n (E.Intersects s.world c n) true := by
          simp [candidateCalls, hh'.1, hh'.2.1, hh'.2.2, hnew]
        have hfst : (S_Collidable.emplace E s.objectsColliding (c, n)).1
            = s.objectsColliding ++ [(c, n)] := by
          simp [S_Collidable.emplace, hany]
        refine ⟨added ++ [(c, n)], ?_, ?_⟩
        · rw [if_pos hh, hfst, hA, List.append_assoc]
        · intro p hp
          rcases List.mem_append.mp hp with hp | hp
          · exact (hall p hp).append _
          · rw [List.mem_singleton.mp hp]
            refine ⟨pre, mid, [], ?_, hst, ?_⟩
            · simp only [List.append_nil]
              rw [hcalls, hW]
            · simp only []
              rw [← hW]; exact hh'.2.2
    · refine ⟨added, ?_, fun p hp => (hall p hp).append _⟩
      simp [hh, hA]

theorem resolveCandidates_progress {W : Type} (E : Env W) (s0 : S_Collidable W)
    (c : C_BoxCollider) (pre : List Event)
    (hst : E.isStatic (worldAfter E s0.world pre) c.owner = false) :
    ∀ (l : List C_BoxCollider) (mid : List Event) (s : S_Collidable W),
      ResolveProgress E s0 s (pre ++ Event.Search c :: mid) →
      ∃ new, ResolveProgress E s0 (l.foldl (S_Collidable.resolveCandidate E c) s) new := by
  intro l
  induction l with
  | nil => intro mid s h; exact ⟨_, h⟩
  | cons n rest ih =>
    intro mid s h
    exact ih _ _ (resolveCandidate_progress E s0 c n pre mid s h hst)

theorem resolveCollidable_progress {W : Type} (E : Env W) (s0 s : S_Collidable W)
    (c : C_BoxCollider) (h : ∃ new, ResolveProgress E s0 s new) :
    ∃ new, ResolveProgress E s0 (S_Collidable.resolveCollidable E s c) new := by
  obtain ⟨new, hT, hW, added, hA, hall⟩ := h
  cases hst : E.isStatic s.world c.owner
  · have hstep : S_Collidable.resolveCollidable E s c
        = (E.Search s.world s.collisionTree c).foldl (S_Collidable.resolveCandidate E c)
            (s.emit (Event.Search c)) := by
      simp [S_Collidable.resolveCollidable, hst]
    rw [hstep]
    refine resolveCandidates_progress E s0 c new (by rw [← hW]; exact hst) _ [] _ ?_
    refine ⟨by simp [S_Collidable.emit, hT], ?_, added, hA, fun p hp => ?_⟩
    · show s.world = _
      rw [worldAfter_append, ← hW]; rfl
    · exact (hall p hp).append _
  · have hstep : S_Collidable.resolveCollidable E s c = s := by
      simp only [S_Collidable.resolveCollidable, hst, if_true]
    rw [hstep]
    exact ⟨new, hT, hW, added, hA, hall⟩

/-- The calls of `Resolve` account for the rest of the game and for every added pair: the
world after `Resolve` is what its calls made of the world before, and every added pair was
added by a scan recorded in these calls, tested in the world of that moment. -/
theorem Resolve_progress {W : Type} (E : Env W) (s : S_Collidable W) :
    ∃ new, ResolveProgress E s (s.Resolve E) new := by
  refine foldl_preserves (fun s' => ∃ new, ResolveProgress E s s' new) _ _ ?_ s
    ⟨[], by simp, by simp [worldAfter], [], by simp, by simp⟩
  intro s' maps _ h
  have h' : ∃ new, ResolveProgress E s (s'.layerMask maps.1).2 new := h
  simp only [S_Collidable.resolveLayer]
  split
  · exact h'
  · exact foldl_preserves (fun s'' => ∃ new, ResolveProgress E s s'' new) _ _
      (fun b c _ hb => resolveCollidable_progress E s b c hb) _ h'

/-! ## The contact set and the layer matrix as shipped -/

/-- C1, evaluated on two mutually reacting colliders: `colA` and `colB` are non-static, on
`Default`, overlap and are both returned by `Search`.  One `Update` from the freshly
constructed system makes the calls listed: the scan of `colA` enters the pair and the scan
of `colB` enters it again, so the owner of `colA` gets `OnCollisionEnter(colB)` twice with
no `OnCollisionExit` in between. -/
theorem C1_enter_fires_twice_for_mutual_pair :
    (run (demoEnv [] []) demoStart [Op.Add twoDefaultObjects, Op.Update]).trace
      = [Event.DrawDebug, Event.Clear, Event.Insert colA, Event.Insert colB,
          Event.Search colA, Event.Intersects colA colB,
          Event.OnCollisionEnter colA colB, Event.OnCollisionEnter colB colA,
          Event.DrawRect colB, Event.DrawRect colA, Event.ResolveOverlap colA ⟨true, (2, 0)⟩,
          Event.Search colB, Event.Intersects colB colA,
          Event.OnCollisionEnter colB colA, Event.OnCollisionEnter colA colB,
          Event.DrawRect colA, Event.DrawRect colB, Event.ResolveOverlap colB ⟨true, (2, 0)⟩]
    ∧ entersAlternate colA colB
        (run (demoEnv [] []) demoStart [Op.Add twoDefaultObjects, Op.Update]).trace
        false = false := by
  decide

/-- C2, evaluated on two mutually reacting colliders: with two non-static overlapping
`Default` colliders, the contact set after one `Update` holds both `(colA, colB)` and
`(colB, colA)`, and `emplace` of `(colB, colA)` into a set holding `(colA, colB)` reports a
new insertion. -/
theorem C2_contact_set_holds_both_orders :
    (run (demoEnv [] []) demoStart [Op.Add twoDefaultObjects, Op.Update]).objectsColliding
      = [(colA, colB), (colB, colA)]
    ∧ S_Collidable.emplace (demoEnv [] []) [(colA, colB)] (colB, colA)
      = ([(colA, colB), (colB, colA)], true) := by
  decide

/-- C3, evaluated on the constructor: the matrix built by the constructor has entries
for `Default`, `Tile`, `Player` and `Projectile` and none for `NPC`; the lookup
`collisionLayers[NPC]` reads the all-zero mask of a default-constructed `Bitmask` and
leaves an `NPC` entry behind. -/
theorem C3_constructor_has_no_NPC_entry :
    LayerMap.find demoStart.collisionLayers CollisionLayer.NPC = none
    ∧ demoStart.collisionLayers.map Prod.fst
      = [CollisionLayer.Default, CollisionLayer.Player, CollisionLayer.Tile,
          CollisionLayer.Projectile]
    ∧ LayerMap.index Bitmask.zero demoStart.collisionLayers CollisionLayer.NPC
      = (Bitmask.zero, demoStart.collisionLayers ++ [(CollisionLayer.NPC, Bitmask.zero)]) := by
  decide

/-- C4, evaluated on an `NPC` bucket: with one `NPC` collider registered, `Resolve`
changes the layer matrix: the lookup `collisionLayers[NPC]` adds an `NPC` entry. -/
theorem C4_Resolve_adds_NPC_entry :
    (S_Collidable.Resolve (demoEnv [] [])
        (demoStart.Add [⟨5, some colN⟩])).collisionLayers
      = demoStart.collisionLayers ++ [(CollisionLayer.NPC, Bitmask.zero)]
    ∧ (S_Collidable.Resolve (demoEnv [] [])
        (demoStart.Add [⟨5, some colN⟩])).collisionLayers
      ≠ (demoStart.Add [⟨5, some colN⟩]).collisionLayers := by
  decide

/-! ## A pair with a member queued for removal -/

/-- C5 (counterexample): the pair `(colP, colT)` is in the contact set and the owner of
`colT` is queued for removal, but `colT` is still in its bucket.  One `Update` calls the two
exit hooks, rebuilds the index with `colT` in it, and `Resolve` finds the pair again: it is
in the contact set when the tick ends. -/
theorem C5_pair_is_back_at_end_of_tick :
    (colP, colT) ∈ tileQueuedState.objectsColliding
    ∧ (demoEnv [4] []).IsQueuedForRemoval tileQueuedState.world colT.owner = true
    ∧ S_Collidable.fired tileQueuedState (tileQueuedState.Update (demoEnv [4] []))
        = [Event.DrawDebug, Event.OnCollisionExit colP colT, Event.OnCollisionExit colT colP,
            Event.Clear, Event.Insert colP, Event.Insert colT,
            Event.Search colP, Event.Intersects colP colT,
            Event.OnCollisionEnter colP colT, Event.OnCollisionEnter colT colP,
            Event.DrawRect colT, Event.DrawRect colP,
            Event.ResolveOverlap colP ⟨true, (2, 0)⟩]
    ∧ (colP, colT) ∈ (tileQueuedState.Update (demoEnv [4] [])).objectsColliding := by
  decide

/-- C5 (amended): let the contact set hold `(A, B)` once and not `(B, A)`, let the owner
of `A` or of `B` be queued for removal, let no bucket hold a collider whose owner is
queued (as after `ProcessRemovals`), let `Search` return only inserted colliders and let
the stay and exit hooks clear no removal flag (they may set flags, and the enter hooks and
`ResolveOverlap` are unconstrained).  Then one `Update` calls `OnCollisionExit` exactly
once on the owner of `A` (with `B`) and exactly once on the owner of `B` (with `A`), and
the pair is not in the contact set when the tick ends. -/
theorem C5_exit_once_then_absent {W : Type} (E : Env W) (hK : QueuedStays E)
    (hS : SearchSound E) (s : S_Collidable W) (A B : C_BoxCollider)
    (hIn : s.objectsColliding.count (A, B) = 1)
    (hRev : (B, A) ∉ s.objectsColliding)
    (hQ : E.IsQueuedForRemoval s.world A.owner = true
      ∨ E.IsQueuedForRemoval s.world B.owner = true)
    (hB : ∀ c ∈ allColliders s.collidables, E.IsQueuedForRemoval s.world c.owner = false) :
    (S_Collidable.fired s (s.Update E)).count (Event.OnCollisionExit A B) = 1
    ∧ (S_Collidable.fired s (s.Update E)).count (Event.OnCollisionExit B A) = 1
    ∧ (A, B) ∉ (s.Update E).objectsColliding := by
  obtain ⟨new, hn⟩ := Update_trace_extends E s
  obtain ⟨_, fCol, fSet, fTree, _, fTr⟩ := beforeResolve_fields E s
  have hcount : ∀ X Y : C_BoxCollider,
      (E.IsQueuedForRemoval s.world X.owner = true
        ∨ E.IsQueuedForRemoval s.world Y.owner = true) →
      List.count (Event.OnCollisionExit X Y) new
        = List.count (X, Y) s.objectsColliding + List.count (Y, X) s.objectsColliding := by
    intro X Y hXY
    have h1 := (processPairs_queued_pair E hK X Y s.objectsColliding
      (s.emit Event.DrawDebug) (by simpa [pairQueued, S_Collidable.emit] using hXY)).1
    have h2 : List.count (Event.OnCollisionExit X Y) (s.Update E).trace
        = List.count (Event.OnCollisionExit X Y) s.trace
          + List.count (X, Y) s.objectsColliding + List.count (Y, X) s.objectsColliding := by
      have h0 : List.count (Event.OnCollisionExit X Y)
          (List.map Event.Insert (allColliders s.collidables)) = 0 := by
        rw [List.count_eq_zero]
        intro hmem
        obtain ⟨c, _, hc⟩ := List.mem_map.mp hmem
        cases hc
      rw [Update_eq, Resolve_exit_count, fTr, List.count_append, h1]
      simp [S_Collidable.emit, List.count_cons, h0]
    rw [hn, List.count_append] at h2
    omega
  have hRev0 : List.count (B, A) s.objectsColliding = 0 := List.count_eq_zero.mpr hRev
  rw [fired_of_trace_eq _ _ new hn]
  refine ⟨?_, ?_, ?_⟩
  · rw [hcount A B hQ, hIn, hRev0]
  · rw [hcount B A hQ.symm, hIn, hRev0]
  · intro hmem
    rw [Update_eq] at hmem
    rcases Resolve_adds_members E hS (beforeResolve E s) _ hmem with h | ⟨hA, hT⟩
    · rw [fSet] at h
      exact (processPairs_queued_pair E hK A B s.objectsColliding
        (s.emit Event.DrawDebug) (by simpa [pairQueued, S_Collidable.emit] using hQ)).2 h
    · rw [fCol] at hA
      rw [fTree] at hT
      rcases hQ with h | h
      · rw [hB _ hA] at h; cases h
      · rw [hB _ hT] at h; cases h

/-- C5 (witness): the amended statement applied to the player and the queued tile after
`ProcessRemovals` has taken the tile out of its bucket. -/
theorem C5_exit_once_then_absent_witness :
    QueuedStays (demoEnv [4] []) ∧ SearchSound (demoEnv [4] [])
    ∧ (tileQueuedState.ProcessRemovals (demoEnv [4] [])).objectsColliding.count (colP, colT) = 1
    ∧ (colT, colP) ∉ (tileQueuedState.ProcessRemovals (demoEnv [4] [])).objectsColliding
    ∧ (demoEnv [4] []).IsQueuedForRemoval
        (tileQueuedState.ProcessRemovals (demoEnv [4] [])).world colT.owner = true
    ∧ ((S_Collidable.fired (tileQueuedState.ProcessRemovals (demoEnv [4] []))
          ((tileQueuedState.ProcessRemovals (demoEnv [4] [])).Update (demoEnv [4] []))).count
          (Event.OnCollisionExit colP colT) = 1
      ∧ (S_Collidable.fired (tileQueuedState.ProcessRemovals (demoEnv [4] []))
          ((tileQueuedState.ProcessRemovals (demoEnv [4] [])).Update (demoEnv [4] []))).count
          (Event.OnCollisionExit colT colP) = 1
      ∧ (colP, colT) ∉
          ((tileQueuedState.ProcessRemovals (demoEnv [4] [])).Update
            (demoEnv [4] [])).objectsColliding) :=
  ⟨demoEnv_queuedStays _ _, demoEnv_searchSound _ _, by decide, by decide, by decide,
    C5_exit_once_then_absent (demoEnv [4] []) (demoEnv_queuedStays _ _)
      (demoEnv_searchSound _ _) (tileQueuedState.ProcessRemovals (demoEnv [4] [])) colP colT
      (by decide) (by decide) (Or.inr (by decide)) (by decide)⟩

/-! ## `ProcessCollidingObjects` -/

/-- C6 (counterexample): the contact set holds `(colP, colT)` and `(colP, colN)`, no owner
is queued for removal, the player has moved off the tile and still overlaps the `NPC`
collider, and the exit hook of an object queues that object for removal.  In the state
before the pass the pairs with neither owner queued and `Intersects` colliding are
`[(colP, colN)]`, but `ProcessCollidingObjects` leaves the contact set empty: the exit hook
called for `(colP, colT)` queues the player, and `(colP, colN)`, visited next, is dropped
with two exit hooks and without an intersection test. -/
theorem C6_exit_hook_queues_a_later_owner :
    leavingTileState.objectsColliding = [(colP, colT), (colP, colN)]
    ∧ leavingTileState.world.queued = []
    ∧ leavingTileState.objectsColliding.filter
        (pairSurvives (selfRemovingEnv [4]) leavingTileState.world) = [(colP, colN)]
    ∧ (leavingTileState.ProcessCollidingObjects (selfRemovingEnv [4])).objectsColliding = []
    ∧ S_Collidable.fired leavingTileState
        (leavingTileState.ProcessCollidingObjects (selfRemovingEnv [4]))
        = [Event.Intersects colP colT, Event.OnCollisionExit colP colT,
            Event.OnCollisionExit colT colP,
            Event.OnCollisionExit colP colN, Event.OnCollisionExit colN colP] := by
  decide

/-- C6 (amended): `ProcessCollidingObjects` visits the pairs of the contact set `S` once
each, in order, and reads removal flags and `Intersects` in the world the pair meets when
it is visited, that is after the stay and exit hooks called for the pairs before it
(`visits`).  For every environment and every state: the contact set afterwards is exactly
the pairs of `S` with, at their visit, neither owner queued for removal and `Intersects`
colliding, in their old order; the calls made are, pair by pair, those of `pairCalls` at
the visit: for a kept pair the intersection test and `OnCollisionStay` once on each owner,
for a pair dropped after the test the test and `OnCollisionExit` once on each owner, for a
pair with a queued owner `OnCollisionExit` once on each owner and no intersection test; the
world afterwards is the one these hooks produce; the result is a sublist of `S` (no pair
is added); every call is an intersection test, a stay hook or an exit hook, and no
`OnCollisionEnter` is called.  When the stay and exit hooks change neither removal flags
nor intersection results, the flags and `Intersects` of the state before the pass give the
same answer: the result is `S` filtered by `pairSurvives` there and the calls are those of
`pairCalls` there. -/
theorem C6_ProcessCollidingObjects_partitions {W : Type} (E : Env W) (s : S_Collidable W) :
    (visits E s.world s.objectsColliding).map Prod.fst = s.objectsColliding
    ∧ (s.ProcessCollidingObjects E).objectsColliding
      = ((visits E s.world s.objectsColliding).filter
          (fun v => pairSurvives E v.2 v.1)).map Prod.fst
    ∧ S_Collidable.fired s (s.ProcessCollidingObjects E)
      = (visits E s.world s.objectsColliding).flatMap (fun v => pairCalls E v.2 v.1)
    ∧ (s.ProcessCollidingObjects E).world
      = worldAfter E s.world (S_Collidable.fired s (s.ProcessCollidingObjects E))
    ∧ List.Sublist (s.ProcessCollidingObjects E).objectsColliding s.objectsColliding
    ∧ (∀ e ∈ S_Collidable.fired s (s.ProcessCollidingObjects E), e.isReevaluation = true)
    ∧ (∀ a b, Event.OnCollisionEnter a b ∉ S_Collidable.fired s (s.ProcessCollidingObjects E))
    ∧ (StayExitInert E →
        (s.ProcessCollidingObjects E).objectsColliding
          = s.objectsColliding.filter (pairSurvives E s.world)
        ∧ S_Collidable.fired s (s.ProcessCollidingObjects E)
          = s.objectsColliding.flatMap (pairCalls E s.world)) := by
  obtain ⟨h1, h2, h3⟩ := processPairs_visits E s.objectsColliding s
  obtain ⟨new, hn, hall⟩ := processPairs_calls E s.objectsColliding s
  have hf : S_Collidable.fired s (s.ProcessCollidingObjects E)
      = (visits E s.world s.objectsColliding).flatMap (fun v => pairCalls E v.2 v.1) :=
    fired_of_trace_eq _ _ _ h2
  have hf' : S_Collidable.fired s (s.ProcessCollidingObjects E) = new :=
    fired_of_trace_eq _ _ _ hn
  refine ⟨visits_fst E _ _, h1, hf, ?_, processPairs_sublist E _ _, ?_, ?_, ?_⟩
  · rw [hf]; exact h3
  · rw [hf']; exact hall
  · intro a b hmem
    rw [hf'] at hmem
    have := hall _ hmem
    simp [Event.isReevaluation] at this
  · intro hE
    have h := processPairs_exact E hE s.world s.objectsColliding s rfl rfl
    exact ⟨h.1, fired_of_trace_eq _ _ _ h.2⟩

/-- C6 (witness): the amended statement at two states.  With three contacts, the first
with a queued owner, the second no longer intersecting, the third still intersecting, and
hooks that change nothing: only the third is kept, and the calls are two exits without a
test, a test and two exits, a test and two stays.  With the two contacts of the
counterexample and an exit hook that queues its object: the player is queued when the
second pair is visited, and nothing is kept. -/
theorem C6_ProcessCollidingObjects_partitions_witness :
    StayExitInert (demoEnv [] [(1, 2)])
    ∧ (threeContactsState.ProcessCollidingObjects (demoEnv [] [(1, 2)])).objectsColliding
        = [(colP, colN)]
    ∧ S_Collidable.fired threeContactsState
        (threeContactsState.ProcessCollidingObjects (demoEnv [] [(1, 2)]))
        = [Event.OnCollisionExit colP colT, Event.OnCollisionExit colT colP,
            Event.Intersects colA colB, Event.OnCollisionExit colA colB,
            Event.OnCollisionExit colB colA,
            Event.Intersects colP colN, Event.OnCollisionStay colP colN,
            Event.OnCollisionStay colN colP]
    ∧ visits (selfRemovingEnv [4]) leavingTileState.world leavingTileState.objectsColliding
        = [((colP, colT), ⟨[], [(3, 4)]⟩), ((colP, colN), ⟨[4, 3], [(3, 4)]⟩)]
    ∧ (leavingTileState.ProcessCollidingObjects (selfRemovingEnv [4])).objectsColliding = [] :=
  ⟨demoEnv_stayExitInert _ _,
    ((C6_ProcessCollidingObjects_partitions (demoEnv [] [(1, 2)])
      threeContactsState).2.2.2.2.2.2.2 (demoEnv_stayExitInert _ _)).1.trans (by decide),
    ((C6_ProcessCollidingObjects_partitions (demoEnv [] [(1, 2)])
      threeContactsState).2.2.2.2.2.2.2 (demoEnv_stayExitInert _ _)).2.trans (by decide),
    by decide,
    (C6_ProcessCollidingObjects_partitions (selfRemovingEnv [4])
      leavingTileState).2.1.trans (by decide)⟩

/-! ## Removed colliders -/

/-- C7: `ProcessRemovals` followed by `Update` never queries or corrects against a removed
collider.  When `Search` returns only colliders inserted since the last `Clear` and the
hooks and `ResolveOverlap` leave the removal flags alone, then for every state, with the
flags read at the start: the flags are unchanged at the end of the tick; every call of the
tick spares the colliders whose owner is queued for removal (`Event.sparesQueued`: no
`Insert`, `Search`, `Intersects`, `OnCollisionEnter`, `OnCollisionStay`, `DrawRect` or
`ResolveOverlap` names one); the index after the rebuild, from which the candidates of
`Resolve` come, holds none; and at the end of the tick no pair of the contact set has a
member whose owner is queued. -/
theorem C7_no_removed_collider_is_queried {W : Type} (E : Env W) (hE : FlagsStable E)
    (hS : SearchSound E) (s : S_Collidable W) :
    E.IsQueuedForRemoval ((s.ProcessRemovals E).Update E).world = E.IsQueuedForRemoval s.world
    ∧ (∀ e ∈ S_Collidable.fired (s.ProcessRemovals E) ((s.ProcessRemovals E).Update E),
        e.sparesQueued (E.IsQueuedForRemoval s.world))
    ∧ (∀ c ∈ ((s.ProcessRemovals E).Update E).collisionTree,
        E.IsQueuedForRemoval s.world c.owner = false)
    ∧ (∀ (w : W) (c : C_BoxCollider),
        ∀ n ∈ E.Search w ((s.ProcessRemovals E).Update E).collisionTree c,
          E.IsQueuedForRemoval s.world n.owner = false)
    ∧ ∀ p ∈ ((s.ProcessRemovals E).Update E).objectsColliding,
        E.IsQueuedForRemoval s.world p.1.owner = false
        ∧ E.IsQueuedForRemoval s.world p.2.owner = false := by
  have hB : ∀ c ∈ allColliders (s.ProcessRemovals E).collidables,
      E.IsQueuedForRemoval (s.ProcessRemovals E).world c.owner = false := by
    intro c hc
    obtain ⟨e, he, hce⟩ := List.mem_flatMap.mp hc
    simp only [S_Collidable.ProcessRemovals, eraseQueuedAll_eq_map, List.mem_map] at he
    obtain ⟨e0, _, rfl⟩ := he
    simpa using (List.mem_filter.mp hce).2
  obtain ⟨hflags, hset, htree, new, hn, hspare⟩ := Update_spares E hE hS (s.ProcessRemovals E) hB
  refine ⟨hflags, ?_, htree, fun w c n hn' => htree n (hS w _ c n hn'), hset⟩
  rw [fired_of_trace_eq _ _ new hn]
  exact hspare

/-- C7 (witness): the player and the tile whose owner is queued for removal: after
`ProcessRemovals` and `Update` no call of the tick other than the exit hooks names the tile
collider and the contact set has no pair with a queued owner. -/
theorem C7_no_removed_collider_is_queried_witness :
    FlagsStable (demoEnv [4] []) ∧ SearchSound (demoEnv [4] [])
    ∧ (∀ e ∈ S_Collidable.fired (tileQueuedState.ProcessRemovals (demoEnv [4] []))
          ((tileQueuedState.ProcessRemovals (demoEnv [4] [])).Update (demoEnv [4] [])),
        e.sparesQueued ((demoEnv [4] []).IsQueuedForRemoval tileQueuedState.world))
    ∧ ∀ p ∈ ((tileQueuedState.ProcessRemovals (demoEnv [4] [])).Update
          (demoEnv [4] [])).objectsColliding,
        (demoEnv [4] []).IsQueuedForRemoval tileQueuedState.world p.1.owner = false
        ∧ (demoEnv [4] []).IsQueuedForRemoval tileQueuedState.world p.2.owner = false :=
  ⟨demoEnv_flagsStable _ _, demoEnv_searchSound _ _,
    (C7_no_removed_collider_is_queried (demoEnv [4] []) (demoEnv_flagsStable _ _)
      (demoEnv_searchSound _ _) tileQueuedState).2.1,
    (C7_no_removed_collider_is_queried (demoEnv [4] []) (demoEnv_flagsStable _ _)
      (demoEnv_searchSound _ _) tileQueuedState).2.2.2.2⟩

/-! ## `ProcessRemovals` -/

/-- C8: `ProcessRemovals` filters every bucket.  Each bucket becomes its previous contents
with the colliders whose owner is queued for removal deleted (a `filter`, so the order of
the others is kept), the layer keys and their order are unchanged, every bucket is a
sublist of what it was and holds exactly the colliders of the old bucket whose owner is not
queued, and no bucket holds a collider whose owner is queued. -/
theorem C8_ProcessRemovals_filters_every_bucket {W : Type} (E : Env W)
    (s : S_Collidable W) :
    (s.ProcessRemovals E).collidables
      = s.collidables.map
          (fun e => (e.1, e.2.filter (fun c => !E.IsQueuedForRemoval s.world c.owner)))
    ∧ (s.ProcessRemovals E).collidables.map Prod.fst = s.collidables.map Prod.fst
    ∧ List.Forall₂
        (fun after before => after.1 = before.1 ∧ List.Sublist after.2 before.2
          ∧ ∀ c, c ∈ after.2 ↔ c ∈ before.2 ∧ E.IsQueuedForRemoval s.world c.owner = false)
        (s.ProcessRemovals E).collidables s.collidables
    ∧ ∀ e ∈ (s.ProcessRemovals E).collidables, ∀ c ∈ e.2,
        E.IsQueuedForRemoval s.world c.owner = false := by
  have h := eraseQueuedAll_eq_map E s.world s.collidables
  refine ⟨h, ?_, ?_, ?_⟩
  · simp only [S_Collidable.ProcessRemovals, h, List.map_map]
    rfl
  · simp only [S_Collidable.ProcessRemovals, h]
    generalize s.collidables = m
    induction m with
    | nil => exact List.Forall₂.nil
    | cons e rest ih =>
      refine List.Forall₂.cons ⟨rfl, List.filter_sublist _, ?_⟩ ih
      intro c
      simp [List.mem_filter]
  · intro e he c hc
    simp only [S_Collidable.ProcessRemovals, h, List.mem_map] at he
    obtain ⟨e0, _, rfl⟩ := he
    simpa [List.mem_filter] using (List.mem_filter.mp hc).2

/-! ## Layers that react to nothing -/

/-- C9: a collider on a layer whose mask is all-zero never scans in `Resolve`, yet is
found as a neighbour.  In every state reached from one without buckets the buckets hold
colliders of their own layer; in such a state `Resolve` makes no `Search` call for a
collider `c` whose layer has mask `0`, applies no `ResolveOverlap` to it and adds no pair
with `c` as first member.  `Tile` has mask `0` in the constructor's matrix.  And with a
non-static `Player` collider `colP` and a static `Tile` collider `colT` that overlap and are
returned by `Search`, `Resolve` (as called by `Update`) inserts `(colP, colT)` and calls
`OnCollisionEnter` on both owners, within the scan of `colP`. -/
theorem C9_zero_mask_layer_never_scans_but_is_found {W : Type} (E : Env W) :
    (∀ (s : S_Collidable W) (ops : List (Op W)),
      BucketsByLayer (run E { s with collidables := [] } ops))
    ∧ (∀ (s : S_Collidable W) (c : C_BoxCollider), BucketsByLayer s →
        (maskOf s.collisionLayers c.layer).GetMask = 0 →
          Event.Search c ∉ S_Collidable.fired s (s.Resolve E)
          ∧ (∀ m, Event.ResolveOverlap c m ∉ S_Collidable.fired s (s.Resolve E))
          ∧ ∀ n, (c, n) ∈ (s.Resolve E).objectsColliding → (c, n) ∈ s.objectsColliding)
    ∧ (maskOf S_Collidable.defaultLayers CollisionLayer.Tile).GetMask = 0
    ∧ (beforeResolve (demoEnv [4] []) (demoStart.Add playerTileObjects)).objectsColliding = []
    ∧ (S_Collidable.Resolve (demoEnv [4] [])
        (beforeResolve (demoEnv [4] []) (demoStart.Add playerTileObjects))).objectsColliding
        = [(colP, colT)]
    ∧ S_Collidable.fired (beforeResolve (demoEnv [4] []) (demoStart.Add playerTileObjects))
        (S_Collidable.Resolve (demoEnv [4] [])
          (beforeResolve (demoEnv [4] []) (demoStart.Add playerTileObjects)))
        = [Event.Search colP, Event.Intersects colP colT,
            Event.OnCollisionEnter colP colT, Event.OnCollisionEnter colT colP,
            Event.DrawRect colT, Event.DrawRect colP,
            Event.ResolveOverlap colP ⟨true, (2, 0)⟩] := by
  refine ⟨?_, ?_, by decide, by decide, by decide, by decide⟩
  · intro s ops
    exact run_preserves E BucketsByLayer (fun s' op h => step_bucketsByLayer E s' op h) ops _
      (by intro e he; simp at he)
  · intro s c hs hz
    obtain ⟨hset, new, hn, hcalls⟩ := Resolve_scanners E s hs
    rw [fired_of_trace_eq _ _ new hn]
    have hall := ResolveCalls.forall_mem
      (fun e => ∀ x, (e = Event.Search x ∨ ∃ m, e = Event.ResolveOverlap x m) →
        (maskOf s.collisionLayers x.layer).GetMask ≠ 0)
      (by
        intro x hx y h
        rcases h with h | ⟨m, h⟩
        · cases h; exact hx
        · cases h)
      (by
        intro x n _ y h
        rcases h with h | ⟨m, h⟩ <;> cases h)
      (by
        intro x n m isNew hx e he y h
        cases isNew <;> simp [contactCalls] at he <;> rcases h with h | ⟨m', h⟩ <;> subst h <;>
          simp at he
        · rw [he.1]; exact hx
        · rw [he.1]; exact hx)
      hcalls
    refine ⟨fun h => hall _ h c (Or.inl rfl) hz, fun m h => hall _ h c (Or.inr ⟨m, rfl⟩) hz, ?_⟩
    intro n hn'
    rcases hset _ hn' with h | h
    · exact h
    · exact absurd hz h

/-! ## Self-pairing -/

/-- C10: self-pairing is impossible.  Whatever `Search` returns, the calls of `Resolve` are
intersection tests, enter hooks and corrections for pairs of colliders with different owner
identities only (a `ResolveCalls` trace for such pairs: each `ResolveOverlap` closes the
calls for one such pair), every `Intersects` and `OnCollisionEnter` call of `Resolve` has two
colliders with different owners, and every pair `Resolve` adds to the contact set has two
different owners.  Hence, from any state with an empty contact set, after any sequence of
operations every pair of the contact set has members with different owner identities. -/
theorem C10_no_self_pairing {W : Type} (E : Env W) :
    (∀ s : S_Collidable W,
      ResolveCalls (fun _ => True) (fun c n => c.owner ≠ n.owner)
        (S_Collidable.fired s (s.Resolve E)))
    ∧ (∀ (s : S_Collidable W) (a b : C_BoxCollider),
        (Event.Intersects a b ∈ S_Collidable.fired s (s.Resolve E)
          ∨ Event.OnCollisionEnter a b ∈ S_Collidable.fired s (s.Resolve E))
          → a.owner ≠ b.owner)
    ∧ (∀ (s : S_Collidable W) (p : ColliderPair), p ∈ (s.Resolve E).objectsColliding →
        p ∈ s.objectsColliding ∨ p.1.owner ≠ p.2.owner)
    ∧ (∀ (s : S_Collidable W) (ops : List (Op W)) (p : ColliderPair),
        p ∈ (run E { s with objectsColliding := [] } ops).objectsColliding →
          p.1.owner ≠ p.2.owner) := by
  have hcalls : ∀ s : S_Collidable W,
      ResolveCalls (fun _ => True) (fun c n => c.owner ≠ n.owner)
        (S_Collidable.fired s (s.Resolve E)) := by
    intro s
    obtain ⟨new, hn, hc⟩ := (Resolve_owners E s).2
    rw [fired_of_trace_eq _ _ new hn]
    exact hc
  refine ⟨hcalls, ?_, fun s p hp => (Resolve_owners E s).1 p hp, ?_⟩
  · intro s a b hab
    have hall := ResolveCalls.forall_mem
      (fun e => ∀ a b, (e = Event.Intersects a b ∨ e = Event.OnCollisionEnter a b) →
        a.owner ≠ b.owner)
      (by intro c _ a b h; rcases h with h | h <;> cases h)
      (by
        intro c n hcn a b h
        rcases h with h | h
        · cases h; exact hcn
        · cases h)
      (by
        intro c n m isNew hcn e he a b h
        cases isNew <;> simp [contactCalls] at he <;> rcases h with h | h <;> subst h <;>
          simp at he
        · rcases he with ⟨rfl, rfl⟩; exact hcn
        · rcases he with ⟨rfl, rfl⟩; exact hcn
        · rcases he with ⟨rfl, rfl⟩ | ⟨rfl, rfl⟩
          · exact hcn
          · exact fun h => hcn h.symm)
      (hcalls s)
    rcases hab with h | h
    · exact hall _ h a b (Or.inl rfl)
    · exact hall _ h a b (Or.inr rfl)
  · intro s ops p hp
    exact run_preserves E (fun s' => ∀ p ∈ s'.objectsColliding, p.1.owner ≠ p.2.owner)
      (fun s' op h => step_contacts E _ (fun _ h => h) s' op h) ops _
      (by intro p hp; simp at hp) p hp

/-! ## Positional correction -/

/-- C11: positional correction in `Resolve` is applied to the scanning collider only, and
that collider is not static.  Let the enter hooks and `ResolveOverlap` leave the static
flags alone, and let `position` be an observation that `c->ResolveOverlap(m)` changes for
the owner of `c` at most and that enter hooks do not change.  Then for every state:
`ResolveOverlap` is called only on colliders that may scan (in a bucket whose layer has a
non-zero mask, owner not static), so on no collider whose owner is static; the position of
every static object is the same after `Resolve` as before; an object whose position differs
owns a collider that may scan; and the static flags are the same afterwards. -/
theorem C11_correction_moves_scanning_collider_only {W P : Type} (E : Env W)
    (position : W → Nat → P) (hS : StaticStable E) (hP : MovesOnlyOwner E position)
    (s : S_Collidable W) :
    (∀ c m, Event.ResolveOverlap c m ∈ S_Collidable.fired s (s.Resolve E) → MayScan E s c)
    ∧ (∀ c m, Event.ResolveOverlap c m ∈ S_Collidable.fired s (s.Resolve E) →
        E.isStatic s.world c.owner = false)
    ∧ (∀ o, E.isStatic s.world o = true →
        position (s.Resolve E).world o = position s.world o)
    ∧ (∀ o, position (s.Resolve E).world o ≠ position s.world o →
        ∃ c : C_BoxCollider, c.owner = o ∧ MayScan E s c)
    ∧ E.isStatic (s.Resolve E).world = E.isStatic s.world := by
  obtain ⟨⟨hstat, hpos⟩, new, hn, hcalls⟩ := Resolve_moves E position hS hP s
  rw [fired_of_trace_eq _ _ new hn]
  have hov : ∀ c m, Event.ResolveOverlap c m ∈ new → MayScan E s c := by
    intro c m hmem
    exact ResolveCalls.forall_mem
      (fun e => ∀ c m, e = Event.ResolveOverlap c m → MayScan E s c)
      (fun _ _ _ _ h => by cases h) (fun _ _ _ _ _ h => by cases h)
      (by
        intro x n m' isNew hx e he c' m'' h
        subst h
        cases isNew <;> simp [contactCalls] at he <;> rw [he.1] <;> exact hx)
      hcalls _ hmem c m rfl
  refine ⟨hov, ?_, ?_, ?_, hstat⟩
  · intro c m hmem
    obtain ⟨_, _, _, _, _, h⟩ := hov c m hmem
    exact h
  · intro o ho
    apply hpos
    rintro c rfl ⟨_, _, _, _, _, h⟩
    rw [ho] at h
    cases h
  · intro o ho
    by_contra hno
    apply ho
    apply hpos
    intro c hc hm
    exact hno ⟨c, hc, hm⟩

/-- C11 (witness): on the line, the player's box at 0 overlaps the static tile's box at 8
by 2.  `Resolve` moves the player to -2 and leaves the tile at 8. -/
theorem C11_correction_moves_scanning_collider_only_witness :
    StaticStable (lineEnv [4]) ∧ MovesOnlyOwner (lineEnv [4]) (fun w o => w o)
    ∧ (lineEnv [4]).isStatic lineState.world 4 = true
    ∧ (S_Collidable.Resolve (lineEnv [4]) lineState).world 4 = lineState.world 4
    ∧ lineState.world 4 = 8
    ∧ lineState.world 3 = 0
    ∧ (S_Collidable.Resolve (lineEnv [4]) lineState).world 3 = -2 :=
  ⟨lineEnv_staticStable _, lineEnv_movesOnlyOwner _, by decide,
    (C11_correction_moves_scanning_collider_only (lineEnv [4]) (fun w o => w o)
      (lineEnv_staticStable _) (lineEnv_movesOnlyOwner _) lineState).2.2.1 4 (by decide),
    by decide, by decide, by decide⟩

/-! ## One candidate of a scan -/

/-- C12: the calls of `Resolve` for a colliding candidate.  Let the candidate `n` of the
scanning collider `c` have another owner, let the mask of `c`'s layer have the bit of `n`'s
layer, and let `c->Intersects(n)` report colliding with manifold `m`.  Then the calls for
this candidate are the intersection test, then, when `emplace` reports the pair as newly
inserted, `OnCollisionEnter` on the owner of `c` (with `n`) and on the owner of `n` (with
`c`), then the two debug rectangles, then `ResolveOverlap(m)` on `c`.  The pair is reported
new when no element of the contact set is the same element as `(c, n)`.  If new, each of the
two enter calls is made exactly once; if not, no enter call is made.  In both cases, and
whatever the static flag of the owner of `n`, `ResolveOverlap` is called exactly once, on
`c` with `m`, as the last call, and the state of the rest of the game is the one after that
call. -/
theorem C12_calls_for_a_colliding_candidate {W : Type} (E : Env W) (s : S_Collidable W)
    (c n : C_BoxCollider) (hOwner : c.owner ≠ n.owner)
    (hBit : (maskOf s.collisionLayers c.layer).GetBit n.layer.toInt = true)
    (hCol : (E.Intersects s.world c n).colliding = true) :
    S_Collidable.fired s (S_Collidable.resolveCandidate E c s n)
      = contactCalls c n (E.Intersects s.world c n)
          (S_Collidable.emplace E s.objectsColliding (c, n)).2
    ∧ ((∀ q ∈ s.objectsColliding, E.sameKey (c, n) q = false) →
        (S_Collidable.emplace E s.objectsColliding (c, n)).2 = true)
    ∧ ((S_Collidable.emplace E s.objectsColliding (c, n)).2 = true →
        (S_Collidable.fired s (S_Collidable.resolveCandidate E c s n)).count
            (Event.OnCollisionEnter c n) = 1
        ∧ (S_Collidable.fired s (S_Collidable.resolveCandidate E c s n)).count
            (Event.OnCollisionEnter n c) = 1)
    ∧ ((S_Collidable.emplace E s.objectsColliding (c, n)).2 = false →
        ∀ a b, Event.OnCollisionEnter a b
          ∉ S_Collidable.fired s (S_Collidable.resolveCandidate E c s n))
    ∧ (S_Collidable.fired s (S_Collidable.resolveCandidate E c s n)).count
          (Event.ResolveOverlap c (E.Intersects s.world c n)) = 1
    ∧ (∀ c' m', Event.ResolveOverlap c' m'
          ∈ S_Collidable.fired s (S_Collidable.resolveCandidate E c s n) →
        c' = c ∧ m' = E.Intersects s.world c n)
    ∧ (S_Collidable.fired s (S_Collidable.resolveCandidate E c s n)).getLast?
        = some (Event.ResolveOverlap c (E.Intersects s.world c n))
    ∧ (S_Collidable.resolveCandidate E c s n).objectsColliding
        = (S_Collidable.emplace E s.objectsColliding (c, n)).1
    ∧ (S_Collidable.resolveCandidate E c s n).world = worldAfterContact E s c n := by
  obtain ⟨hT, hSet, hWorld, _, _⟩ := resolveCandidate_effect E c n s
  have hhit : candidateHit E s c n = true := by simp [candidateHit, hOwner, hBit, hCol]
  have hcalls : candidateCalls E s c n
      = contactCalls c n (E.Intersects s.world c n)
          (S_Collidable.emplace E s.objectsColliding (c, n)).2 := by
    simp [candidateCalls, hOwner, hBit, hCol]
  have hne : c ≠ n := fun h => hOwner (by rw [h])
  have hne' : n ≠ c := fun h => hne h.symm
  rw [fired_of_trace_eq _ _ _ hT, hcalls]
  refine ⟨rfl, ?_, ?_, ?_, ?_, ?_, ?_, ?_, ?_⟩
  · intro h
    unfold S_Collidable.emplace
    have : s.objectsColliding.any (E.sameKey (c, n)) = false := by
      rw [List.any_eq_false]
      intro q hq
      simp [h q hq]
    simp [this]
  · intro h
    rw [h]
    simp [contactCalls, List.count_cons, hne, hne']
  · intro h a b
    rw [h]
    simp [contactCalls]
  · cases (S_Collidable.emplace E s.objectsColliding (c, n)).2 <;>
      simp [contactCalls, List.count_cons]
  · intro c' m' hmem
    cases h : (S_Collidable.emplace E s.objectsColliding (c, n)).2 <;>
      simp [contactCalls, h] at hmem <;> exact hmem
  · cases (S_Collidable.emplace E s.objectsColliding (c, n)).2 <;> simp [contactCalls]
  · rw [hSet, if_pos hhit]
  · rw [hWorld, if_pos hhit]

/-- C12 (witness): the scan of `colA` meets `colB` for the first time: test, the two enter
hooks, the two debug rectangles, the correction of `colA`. -/
theorem C12_calls_for_a_colliding_candidate_witness :
    colA.owner ≠ colB.owner
    ∧ (maskOf twoDefaultState.collisionLayers colA.layer).GetBit colB.layer.toInt = true
    ∧ ((demoEnv [] []).Intersects twoDefaultState.world colA colB).colliding = true
    ∧ S_Collidable.fired twoDefaultState
        (S_Collidable.resolveCandidate (demoEnv [] []) colA twoDefaultState colB)
        = [Event.Intersects colA colB, Event.OnCollisionEnter colA colB,
            Event.OnCollisionEnter colB colA, Event.DrawRect colB, Event.DrawRect colA,
            Event.ResolveOverlap colA ⟨true, (2, 0)⟩] :=
  ⟨by decide, by decide, by decide,
    (C12_calls_for_a_colliding_candidate (demoEnv [] []) twoDefaultState colA colB
      (by decide) (by decide) (by decide)).1.trans (by decide)⟩

/-! ## The default configuration -/

/-- C13: the matrix built by the constructor encodes the documented default configuration.
It has an entry for each of `Default`, `Tile`, `Player` and `Projectile`, and for every layer
`L`: the mask of `Default` tests true for `L` iff `L = Default`; the mask of `Tile` has raw
value `0` and tests false for `L`; the mask of `Player` tests true for `L` iff `L` is
`Default`, `Tile` or `NPC`; the mask of `Projectile` tests true for `L` iff `L` is `Tile` or
`NPC`. -/
theorem C13_constructor_matrix_is_the_default_configuration {W : Type} (w : W) :
    ((LayerMap.find (S_Collidable.new w).collisionLayers CollisionLayer.Default).isSome = true
      ∧ (LayerMap.find (S_Collidable.new w).collisionLayers CollisionLayer.Tile).isSome = true
      ∧ (LayerMap.find (S_Collidable.new w).collisionLayers CollisionLayer.Player).isSome = true
      ∧ (LayerMap.find (S_Collidable.new w).collisionLayers CollisionLayer.Projectile).isSome
          = true)
    ∧ (∀ L : CollisionLayer,
        (maskOf (S_Collidable.new w).collisionLayers CollisionLayer.Default).GetBit L.toInt = true
          ↔ L = CollisionLayer.Default)
    ∧ (maskOf (S_Collidable.new w).collisionLayers CollisionLayer.Tile).GetMask = 0
    ∧ (∀ L : CollisionLayer,
        (maskOf (S_Collidable.new w).collisionLayers CollisionLayer.Tile).GetBit L.toInt = false)
    ∧ (∀ L : CollisionLayer,
        (maskOf (S_Collidable.new w).collisionLayers CollisionLayer.Player).GetBit L.toInt = true
          ↔ L = CollisionLayer.Default ∨ L = CollisionLayer.Tile ∨ L = CollisionLayer.NPC)
    ∧ (∀ L : CollisionLayer,
        (maskOf (S_Collidable.new w).collisionLayers CollisionLayer.Projectile).GetBit L.toInt
            = true
          ↔ L = CollisionLayer.Tile ∨ L = CollisionLayer.NPC) := by
  show ((LayerMap.find S_Collidable.defaultLayers CollisionLayer.Default).isSome = true
      ∧ (LayerMap.find S_Collidable.defaultLayers CollisionLayer.Tile).isSome = true
      ∧ (LayerMap.find S_Collidable.defaultLayers CollisionLayer.Player).isSome = true
      ∧ (LayerMap.find S_Collidable.defaultLayers CollisionLayer.Projectile).isSome = true)
    ∧ (∀ L : CollisionLayer,
        (maskOf S_Collidable.defaultLayers CollisionLayer.Default).GetBit L.toInt = true
          ↔ L = CollisionLayer.Default)
    ∧ (maskOf S_Collidable.defaultLayers CollisionLayer.Tile).GetMask = 0
    ∧ (∀ L : CollisionLayer,
        (maskOf S_Collidable.defaultLayers CollisionLayer.Tile).GetBit L.toInt = false)
    ∧ (∀ L : CollisionLayer,
        (maskOf S_Collidable.defaultLayers CollisionLayer.Player).GetBit L.toInt = true
          ↔ L = CollisionLayer.Default ∨ L = CollisionLayer.Tile ∨ L = CollisionLayer.NPC)
    ∧ (∀ L : CollisionLayer,
        (maskOf S_Collidable.defaultLayers CollisionLayer.Projectile).GetBit L.toInt = true
          ↔ L = CollisionLayer.Tile ∨ L = CollisionLayer.NPC)
  refine ⟨by decide, ?_, by decide, ?_, ?_, ?_⟩ <;> intro L <;> cases L <;> decide

/-! ## A layer without an entry in the matrix -/

/-- C14 (counterexample): `NPC` has no entry in the matrix, the `NPC` bucket holds the
non-static collider `colN`, which overlaps the player's collider.  One `Update` runs to its
end: the scan of the player's collider finds `colN` and resolves the contact, `colN` itself
is never scanned, and the matrix ends with an all-zero `NPC` entry.  The calls, the contact
set and the matrix are those of the same tick started with an explicit all-zero `NPC`
entry. -/
theorem C14_unconfigured_layer_is_defaulted :
    LayerMap.find playerNpcState.collisionLayers CollisionLayer.NPC = none
    ∧ bucketOf playerNpcState.collidables CollisionLayer.NPC = [colN]
    ∧ (demoEnv [] []).isStatic playerNpcState.world colN.owner = false
    ∧ S_Collidable.fired playerNpcState (playerNpcState.Update (demoEnv [] []))
        = [Event.DrawDebug, Event.Clear, Event.Insert colP, Event.Insert colN,
            Event.Search colP, Event.Intersects colP colN,
            Event.OnCollisionEnter colP colN, Event.OnCollisionEnter colN colP,
            Event.DrawRect colN, Event.DrawRect colP,
            Event.ResolveOverlap colP ⟨true, (2, 0)⟩]
    ∧ (playerNpcState.Update (demoEnv [] [])).collisionLayers
        = playerNpcState.collisionLayers ++ [(CollisionLayer.NPC, Bitmask.zero)]
    ∧ (S_Collidable.Update (demoEnv [] [])
          { playerNpcState with
            collisionLayers :=
              LayerMap.insert playerNpcState.collisionLayers CollisionLayer.NPC
                Bitmask.zero }).trace
        = (playerNpcState.Update (demoEnv [] [])).trace
    ∧ (S_Collidable.Update (demoEnv [] [])
          { playerNpcState with
            collisionLayers :=
              LayerMap.insert playerNpcState.collisionLayers CollisionLayer.NPC
                Bitmask.zero }).objectsColliding
        = (playerNpcState.Update (demoEnv [] [])).objectsColliding
    ∧ (S_Collidable.Update (demoEnv [] [])
          { playerNpcState with
            collisionLayers :=
              LayerMap.insert playerNpcState.collisionLayers CollisionLayer.NPC
                Bitmask.zero }).collisionLayers
        = (playerNpcState.Update (demoEnv [] [])).collisionLayers := by
  decide

/-- C14 (amended): an unconfigured layer is defaulted, not rejected.  For every state in
which the layer `k` has no entry in the matrix, the lookup `collisionLayers[k]` reads the
all-zero mask and leaves an all-zero entry for `k`; `Resolve` runs to its end and changes
the mask read for no layer; and where the buckets hold colliders of their own layer,
`Resolve` makes no `Search` and no `ResolveOverlap` call for a collider on `k` and adds no
pair with it as first member. -/
theorem C14_unconfigured_layer_reads_zero_mask {W : Type} (E : Env W) (s : S_Collidable W)
    (k : CollisionLayer) (hk : LayerMap.find s.collisionLayers k = none) :
    (s.layerMask k).1 = Bitmask.zero
    ∧ LayerMap.find (s.layerMask k).2.collisionLayers k = some Bitmask.zero
    ∧ (∀ k', maskOf (s.Resolve E).collisionLayers k' = maskOf s.collisionLayers k')
    ∧ (BucketsByLayer s → ∀ c : C_BoxCollider, c.layer = k →
        Event.Search c ∉ S_Collidable.fired s (s.Resolve E)
        ∧ (∀ m, Event.ResolveOverlap c m ∉ S_Collidable.fired s (s.Resolve E))
        ∧ ∀ n, (c, n) ∈ (s.Resolve E).objectsColliding → (c, n) ∈ s.objectsColliding) := by
  have hz : maskOf s.collisionLayers k = Bitmask.zero := by
    rw [maskOf_eq, hk]; rfl
  refine ⟨hz, ?_, fun k' => Resolve_maskOf E s k', ?_⟩
  · simp only [S_Collidable.layerMask, LayerMap.index, hk]
    rw [LayerMap.find_insert _ _ _ _ hk]
    simp
  · intro hs c hc
    exact Resolve_skips_zero_mask E s hs c (by rw [hc, hz]; rfl)

/-- C14 (witness): the amended statement for `NPC` in the freshly constructed system with
the player and the `NPC` collider registered. -/
theorem C14_unconfigured_layer_reads_zero_mask_witness :
    LayerMap.find playerNpcState.collisionLayers CollisionLayer.NPC = none
    ∧ (playerNpcState.layerMask CollisionLayer.NPC).1 = Bitmask.zero
    ∧ LayerMap.find (playerNpcState.layerMask CollisionLayer.NPC).2.collisionLayers
        CollisionLayer.NPC = some Bitmask.zero :=
  ⟨by decide,
    (C14_unconfigured_layer_reads_zero_mask (demoEnv [] []) playerNpcState CollisionLayer.NPC
      (by decide)).1,
    (C14_unconfigured_layer_reads_zero_mask (demoEnv [] []) playerNpcState CollisionLayer.NPC
      (by decide)).2.1⟩

/-! ## `Add` -/

/-- C15: `Add` appends by layer.  After `Add` the bucket of each layer `L` is its previous
contents (empty when `L` had no bucket) followed by the colliders, in list order, of the
objects of the list that have a collider on `L`; where the list brings nothing to `L` the
entry of `L` (or its absence) is as before.  An object without a collider changes nothing.
For an object with a collider `c`, the bucket of `c`'s layer gets `c` appended and no other
layer's entry changes; the branch that creates the bucket yields `[c]` and the branch that
finds a bucket `b` yields `b ++ [c]`, both the old bucket (empty when absent) with `c`
appended. -/
theorem C15_Add_appends_by_layer {W : Type} (s : S_Collidable W) (objects : List Object) :
    (∀ L, bucketOf (s.Add objects).collidables L
        = bucketOf s.collidables L ++ collidersFor objects L)
    ∧ (∀ L, collidersFor objects L = [] →
        LayerMap.find (s.Add objects).collidables L = LayerMap.find s.collidables L)
    ∧ (∀ o : Object, o.collider = none → S_Collidable.addObject s o = s)
    ∧ (∀ (o : Object) (c : C_BoxCollider), o.collider = some c →
        bucketOf (S_Collidable.addObject s o).collidables c.layer
          = bucketOf s.collidables c.layer ++ [c]
        ∧ (∀ L, L ≠ c.layer →
            LayerMap.find (S_Collidable.addObject s o).collidables L
              = LayerMap.find s.collidables L)
        ∧ (LayerMap.find s.collidables c.layer = none →
            LayerMap.find (S_Collidable.addObject s o).collidables c.layer = some [c])
        ∧ (∀ b, LayerMap.find s.collidables c.layer = some b →
            LayerMap.find (S_Collidable.addObject s o).collidables c.layer
              = some (b ++ [c]))) := by
  refine ⟨?_, ?_, ?_, ?_⟩
  · intro L
    unfold bucketOf
    rw [Add_find objects L s]
    by_cases h : collidersFor objects L = []
    · simp [h]
    · simp [h, bucketOf]
  · intro L h
    rw [Add_find objects L s, if_pos h]
  · intro o h
    simp [S_Collidable.addObject, h]
  · intro o c hc
    have h := addObject_find s o c hc
    refine ⟨?_, ?_, ?_, ?_⟩
    · simp [bucketOf, h]
    · intro L hL
      rw [h L, if_neg hL]
    · intro hn
      rw [h c.layer]
      simp [bucketOf, hn]
    · intro b hb
      rw [h c.layer]
      simp [bucketOf, hb]

/-! ## The order of the steps of `Update` -/

/-- C16: `Update` runs its steps in the order `DrawDebug`, `ProcessCollidingObjects`,
`Clear`, reinsert, `Resolve`.  For every state the calls of one `Update` are: `DrawDebug`;
the calls of `ProcessCollidingObjects` (intersection tests, stay and exit hooks only); one
`Clear`; one `Insert` for each collider of each bucket, bucket after bucket in bucket order;
the calls of `Resolve` on the state reached then (searches, intersection tests, enter hooks,
debug rectangles and corrections only).  So every stay and exit hook of the tick precedes
the `Clear`, and when `Resolve` starts the index holds exactly the colliders of all buckets
(whatever their static flag or their layer's mask), once per occurrence in a bucket, and
the buckets are those of the start of the tick. -/
theorem C16_Update_runs_steps_in_order {W : Type} (E : Env W) (s : S_Collidable W) :
    S_Collidable.fired s (s.Update E)
      = [Event.DrawDebug]
        ++ S_Collidable.fired (s.emit Event.DrawDebug)
            (S_Collidable.ProcessCollidingObjects E (s.emit Event.DrawDebug))
        ++ [Event.Clear]
        ++ (allColliders s.collidables).map Event.Insert
        ++ S_Collidable.fired (beforeResolve E s) (S_Collidable.Resolve E (beforeResolve E s))
    ∧ (∀ e ∈ S_Collidable.fired (s.emit Event.DrawDebug)
          (S_Collidable.ProcessCollidingObjects E (s.emit Event.DrawDebug)),
        e.isReevaluation = true)
    ∧ (∀ e ∈ (allColliders s.collidables).map Event.Insert
          ++ S_Collidable.fired (beforeResolve E s)
              (S_Collidable.Resolve E (beforeResolve E s)),
        e.isStayOrExit = false)
    ∧ (∀ e ∈ S_Collidable.fired (beforeResolve E s)
          (S_Collidable.Resolve E (beforeResolve E s)),
        e.isResolveCall = true)
    ∧ s.Update E = S_Collidable.Resolve E (beforeResolve E s)
    ∧ (beforeResolve E s).collisionTree = allColliders s.collidables
    ∧ (beforeResolve E s).collidables = s.collidables
    ∧ (beforeResolve E s).objectsColliding
        = (S_Collidable.ProcessCollidingObjects E (s.emit Event.DrawDebug)).objectsColliding := by
  obtain ⟨new1, hn1, hall1⟩ := processPairs_calls E s.objectsColliding (s.emit Event.DrawDebug)
  obtain ⟨new2, hn2, hall2⟩ := Resolve_calls E (beforeResolve E s)
  obtain ⟨_, fC, fS, fT, _, fTr⟩ := beforeResolve_fields E s
  have hp : S_Collidable.fired (s.emit Event.DrawDebug)
      (S_Collidable.ProcessCollidingObjects E (s.emit Event.DrawDebug)) = new1 :=
    fired_of_trace_eq _ _ new1 hn1
  have hr : S_Collidable.fired (beforeResolve E s)
      (S_Collidable.Resolve E (beforeResolve E s)) = new2 :=
    fired_of_trace_eq _ _ new2 hn2
  rw [hp, hr]
  refine ⟨?_, hall1, ?_, hall2, rfl, fT, fC, fS⟩
  · apply fired_of_trace_eq
    rw [Update_eq, hn2, fTr, hn1]
    simp [S_Collidable.emit]
  · intro e he
    rcases List.mem_append.mp he with h | h
    · obtain ⟨c, _, rfl⟩ := List.mem_map.mp h
      rfl
    · have := hall2 e h
      cases e <;> simp [Event.isResolveCall] at this <;> rfl

/-! ## The layer test -/

/-- C17: the layer test of `Resolve` is directional.  For a scanning collider `c` and a
candidate `n` with another owner, the intersection test is called if and only if the mask
of `c`'s layer has the bit of `n`'s layer; without the bit nothing is called, the contact
set and the rest of the game stay as they are.  The calls, the contact set and the rest of
the game after the candidate are the same for every matrix that gives `c`'s layer the same
mask, so they do not depend on the mask of `n`'s layer.  In the constructor's matrix the
mask of `Player` has the bit of `Tile` and the mask of `Tile` lacks the bit of `Player`,
and the player collider scanning the tile collider calls the intersection test. -/
theorem C17_layer_test_is_directional {W : Type} (E : Env W) (s : S_Collidable W)
    (c n : C_BoxCollider) (hOwner : c.owner ≠ n.owner) :
    (Event.Intersects c n ∈ S_Collidable.fired s (S_Collidable.resolveCandidate E c s n)
        ↔ (maskOf s.collisionLayers c.layer).GetBit n.layer.toInt = true)
    ∧ ((maskOf s.collisionLayers c.layer).GetBit n.layer.toInt = false →
        S_Collidable.fired s (S_Collidable.resolveCandidate E c s n) = []
        ∧ (S_Collidable.resolveCandidate E c s n).objectsColliding = s.objectsColliding
        ∧ (S_Collidable.resolveCandidate E c s n).world = s.world)
    ∧ (∀ layers : LayerMap Bitmask, maskOf layers c.layer = maskOf s.collisionLayers c.layer →
        (S_Collidable.resolveCandidate E c { s with collisionLayers := layers } n).trace
          = (S_Collidable.resolveCandidate E c s n).trace
        ∧ (S_Collidable.resolveCandidate E c { s with collisionLayers := layers }
            n).objectsColliding
          = (S_Collidable.resolveCandidate E c s n).objectsColliding
        ∧ (S_Collidable.resolveCandidate E c { s with collisionLayers := layers } n).world
          = (S_Collidable.resolveCandidate E c s n).world)
    ∧ (maskOf S_Collidable.defaultLayers CollisionLayer.Player).GetBit
        CollisionLayer.Tile.toInt = true
    ∧ (maskOf S_Collidable.defaultLayers CollisionLayer.Tile).GetBit
        CollisionLayer.Player.toInt = false
    ∧ Event.Intersects colP colT ∈ S_Collidable.fired playerTileState
        (S_Collidable.resolveCandidate (demoEnv [4] []) colP playerTileState colT) := by
  obtain ⟨hT, hSet, hWorld, _, _⟩ := resolveCandidate_effect E c n s
  rw [fired_of_trace_eq _ _ _ hT]
  refine ⟨?_, ?_, ?_, by decide, by decide, by decide⟩
  · cases hb : (maskOf s.collisionLayers c.layer).GetBit n.layer.toInt
    · simp [candidateCalls, hOwner, hb]
    · cases hc : (E.Intersects s.world c n).colliding
      · simp [candidateCalls, hOwner, hb, hc]
      · simp [candidateCalls, hOwner, hb, hc, contactCalls]
  · intro hb
    refine ⟨by simp [candidateCalls, hOwner, hb], ?_, ?_⟩
    · rw [hSet]; simp [candidateHit, hb]
    · rw [hWorld]; simp [candidateHit, hb]
  · intro layers hl
    obtain ⟨hT', hSet', hWorld', _, _⟩ :=
      resolveCandidate_effect E c n { s with collisionLayers := layers }
    refine ⟨?_, ?_, ?_⟩
    · rw [hT', hT]; simp only [candidateCalls, hl]
    · rw [hSet', hSet]; simp only [candidateHit, hl]
    · rw [hWorld', hWorld]; simp only [candidateHit, worldAfterContact, hl]

/-- C17 (witness): with the constructor's matrix, the tile collider as scanning collider
and the player collider as candidate: `Tile` does not react to `Player`, no test is made,
although `Player` reacts to `Tile`. -/
theorem C17_layer_test_is_directional_witness :
    colT.owner ≠ colP.owner
    ∧ (maskOf playerTileState.collisionLayers colT.layer).GetBit colP.layer.toInt = false
    ∧ (maskOf playerTileState.collisionLayers colP.layer).GetBit colT.layer.toInt = true
    ∧ Event.Intersects colT colP ∉ S_Collidable.fired playerTileState
        (S_Collidable.resolveCandidate (demoEnv [4] []) colT playerTileState colP) :=
  ⟨by decide, by decide, by decide,
    fun h => absurd
      ((C17_layer_test_is_directional (demoEnv [4] []) playerTileState colT colP
        (by decide)).1.mp h) (by decide)⟩

/-! ## What `Resolve` adds -/

/-- C18: `Resolve` only grows the contact set and signals neither stay nor exit.  For
every state and every behaviour of `Search`, `Intersects` and the hooks, the contact set
after `Resolve` is the one before followed by the pairs added, so every pair of it is still
there; no call of `Resolve` is an `OnCollisionStay` or an `OnCollisionExit`; and every added
pair `(C, N)` has `C` in a bucket whose layer has a non-zero mask, the owner of `C` not
static when its scan began, the mask of `C`'s layer with the bit of `N`'s layer, and
`Intersects(C, N)` colliding when tested.  The moment of the scan and of the test is fixed
by the calls `Resolve` makes (`AddedAt`): they are some calls, the `Search` for `C`,
further calls, the calls for the new colliding pair `(C, N)`, and the rest; the owner of
`C` is not static in the world reached by the calls before the `Search`, and `Intersects`
reports colliding in the world reached by the calls before the test of `(C, N)`; the world
after `Resolve` is the one reached by all its calls.  Where the enter hooks and
`ResolveOverlap` leave static flags alone, the owner of `C` is not static in the state
before `Resolve`. -/
theorem C18_Resolve_only_grows_the_contact_set {W : Type} (E : Env W)
    (s : S_Collidable W) :
    (∃ added, (s.Resolve E).objectsColliding = s.objectsColliding ++ added
      ∧ (∀ p ∈ added, AddedByResolve E s p)
      ∧ (StaticStable E → ∀ p ∈ added, E.isStatic s.world p.1.owner = false)
      ∧ (∀ p ∈ added, AddedAt E s.world (S_Collidable.fired s (s.Resolve E)) p))
    ∧ (s.Resolve E).world = worldAfter E s.world (S_Collidable.fired s (s.Resolve E))
    ∧ (∀ p ∈ s.objectsColliding, p ∈ (s.Resolve E).objectsColliding)
    ∧ (∀ e ∈ S_Collidable.fired s (s.Resolve E), e.isStayOrExit = false)
    ∧ ∀ a b, Event.OnCollisionStay a b ∉ S_Collidable.fired s (s.Resolve E)
        ∧ Event.OnCollisionExit a b ∉ S_Collidable.fired s (s.Resolve E) := by
  obtain ⟨added, hadd, hall⟩ := Resolve_adds E s
  obtain ⟨new, hn, hcalls⟩ := Resolve_calls E s
  obtain ⟨new', hT, hW, added', hA, hAt⟩ := Resolve_progress E s
  have hnew : new' = new := List.append_cancel_left (hT.symm.trans hn)
  have hadded : added' = added := List.append_cancel_left (hA.symm.trans hadd)
  subst hnew
  subst hadded
  rw [fired_of_trace_eq _ _ new' hn]
  have hse : ∀ e ∈ new', e.isStayOrExit = false := by
    intro e he
    have := hcalls e he
    cases e <;> simp [Event.isResolveCall] at this <;> rfl
  refine ⟨⟨added', hadd, hall, ?_, hAt⟩, hW, ?_, hse, ?_⟩
  · intro hS p hp
    obtain ⟨_, ⟨w, hw, hst⟩, _, _⟩ := hall p hp
    rw [← ResolveWorld.isStatic_eq hS hw]
    exact hst
  · intro p hp
    rw [hadd]
    exact List.mem_append_left _ hp
  · intro a b
    exact ⟨fun h => by simpa [Event.isStayOrExit] using hse _ h,
      fun h => by simpa [Event.isStayOrExit] using hse _ h⟩

/-! ## `ProcessRemovals` once more -/

/-- C19: `ProcessRemovals` is idempotent and touches only the buckets.  Applying it twice
gives the same state, in particular the same buckets, as applying it once; it leaves the
contact set, the layer matrix, the index contents and the rest of the game as they are and
makes no outgoing call (no hook); so every pair of the contact set, also one with a member
whose owner is queued for removal, is still in it afterwards. -/
theorem C19_ProcessRemovals_idempotent_and_local {W : Type} (E : Env W)
    (s : S_Collidable W) :
    ((s.ProcessRemovals E).ProcessRemovals E).collidables = (s.ProcessRemovals E).collidables
    ∧ (s.ProcessRemovals E).ProcessRemovals E = s.ProcessRemovals E
    ∧ (s.ProcessRemovals E).objectsColliding = s.objectsColliding
    ∧ (s.ProcessRemovals E).collisionLayers = s.collisionLayers
    ∧ (s.ProcessRemovals E).collisionTree = s.collisionTree
    ∧ (s.ProcessRemovals E).world = s.world
    ∧ S_Collidable.fired s (s.ProcessRemovals E) = []
    ∧ ∀ p ∈ s.objectsColliding, p ∈ (s.ProcessRemovals E).objectsColliding := by
  have hc : ((s.ProcessRemovals E).ProcessRemovals E).collidables
      = (s.ProcessRemovals E).collidables := by
    simp only [S_Collidable.ProcessRemovals, eraseQueuedAll_eq_map, List.map_map]
    apply List.map_congr_left
    intro e _
    simp [List.filter_filter]
  refine ⟨hc, ?_, rfl, rfl, rfl, rfl, ?_, fun p hp => hp⟩
  · have h2 : (s.ProcessRemovals E).ProcessRemovals E
        = { s.ProcessRemovals E with
            collidables := ((s.ProcessRemovals E).ProcessRemovals E).collidables } := rfl
    rw [h2, hc]
  · simp [S_Collidable.fired, S_Collidable.ProcessRemovals]

end ThatGameEngine
